import Mathlib

/-!
Verification of the core data operations of the Gyeon Inventory Management
System (single Python source file `Gyeon IMS Application.py`).

Shallow embedding conventions:
* Python strings are `List Char` (code-point sequences; Python compares
  strings lexicographically by code point, which matches the lexicographic
  `LinearOrder` on `List Char`).  `str.lower` is modelled on the ASCII
  range, `str.strip` removes the ASCII whitespace characters.
* An inventory record is a structure with the four string fields the
  application stores in its dicts (`product_number`, `name`, `category`,
  `quantity`), in the construction order of `add_item`.
* `int(s)` is modelled by `pyInt : List Char → Option Int` (whitespace
  stripped, optional sign, nonempty digit run); a `none` models the
  `ValueError` raise.
* Functions that can raise return `Option`/a result flag; every GUI
  method is modelled as a pure function from the inventory (and the form
  inputs / dialog answers) to the new inventory plus an outcome tag.
-/

namespace Gyeon

/-- Python strings modelled as code-point lists. -/
abbrev PyStr := List Char

/-- ASCII whitespace recognised by Python's `str.strip()` (space, tab,
newline, carriage return, vertical tab, form feed). -/
def isSpaceChar (c : Char) : Bool :=
  c = ' ' || c = '\t' || c = '\n' || c = '\r' || c = '\x0b' || c = '\x0c'

/-- ASCII decimal digit test (model of the character class accepted by
`str.isdigit` / `int` on the ASCII range). -/
def isDigitChar (c : Char) : Bool :=
  '0' ≤ c && c ≤ '9'

/-- Removal of trailing whitespace (the tail half of `str.strip()`). -/
def stripEnd (s : PyStr) : PyStr :=
  (s.reverse.dropWhile isSpaceChar).reverse

/-- Model of Python `str.strip()`: drop leading and trailing whitespace. -/
def pyStrip (s : PyStr) : PyStr :=
  stripEnd (s.dropWhile isSpaceChar)

/-- Model of Python `str.lower()` on the ASCII range: map `A`-`Z` to
`a`-`z`, leave every other character unchanged. -/
def lowerChar (c : Char) : Char :=
  if 'A' ≤ c && c ≤ 'Z' then Char.ofNat (c.toNat + 32) else c

/-- Model of Python `str.lower()` applied to a whole string. -/
def pyLower (s : PyStr) : PyStr :=
  s.map lowerChar

/-- Model of Python `str.isdigit()` (ASCII digits): nonempty and all
characters are decimal digits. -/
def pyIsDigit (s : PyStr) : Bool :=
  !s.isEmpty && s.all isDigitChar

/-- Numeric value of a digit run, most significant digit first. -/
def digitsVal (s : PyStr) : Nat :=
  s.foldl (fun a c => a * 10 + (c.toNat - 48)) 0

/-- Parse a nonempty all-digit run, else `none`. -/
def digitRun (s : PyStr) : Option Int :=
  if !s.isEmpty && s.all isDigitChar then some (Int.ofNat (digitsVal s)) else none

/-- Model of Python `int(s)` on strings: strip whitespace, allow one
optional sign, then require a nonempty digit run.  `none` models the
`ValueError` raise. -/
def pyInt (s : PyStr) : Option Int :=
  match pyStrip s with
  | [] => none
  | c :: ds =>
    if c = '+' then digitRun ds
    else if c = '-' then (digitRun ds).map Int.neg
    else digitRun (c :: ds)

/-- Model of Python `str(i)` for an integer `i` (decimal, `-` sign for
negative values), as used by `str(int(...) + int(...))` in `add_item`. -/
def pyIntStr (i : Int) : PyStr :=
  (toString i).data

/-- One inventory record: the dict
`{"product_number", "name", "category", "quantity"}` built by `add_item`,
all four values stored as strings. -/
structure Record where
  product_number : PyStr
  name : PyStr
  category : PyStr
  quantity : PyStr
deriving DecidableEq, Repr, Inhabited

/-- Category ordering used for the custom category sort
(`CATEGORY_ORDER` at the top of the source file). -/
def CATEGORY_ORDER : List PyStr :=
  ["Coating & Wax".data, "Maintenance".data, "Pads".data, "Accessories".data]

/-- Normalisation applied to names before comparison in `linear_search`:
`strip()` then `lower()`. -/
def normName (s : PyStr) : PyStr :=
  pyLower (pyStrip s)

/-- Inner loop of `linear_search`: scan with the running index `i`. -/
def linear_search_from (i : Nat) (inv : List Record) (target : PyStr) : Int :=
  match inv with
  | [] => -1
  | r :: rest =>
    if normName r.name = target then Int.ofNat i
    else linear_search_from (i + 1) rest target

/-- Model of `linear_search(inventory, name)` (lines 40-51): index of the
first record whose stripped, lowercased name equals the stripped,
lowercased search name, else `-1`. -/
def linear_search (inv : List Record) (name : PyStr) : Int :=
  linear_search_from 0 inv (normName name)

/-- Specification of the scan: either no record from position `i` on
matches and the result is `-1`, or the result is the absolute index of
the first match at or after `i`. -/
theorem linear_search_from_spec (inv : List Record) (t : PyStr) (i : Nat) :
    (linear_search_from i inv t = -1 ∧ ∀ r ∈ inv, normName r.name ≠ t) ∨
    (∃ k, ∃ hk : k < inv.length,
      linear_search_from i inv t = Int.ofNat (i + k) ∧
      normName (inv.get ⟨k, hk⟩).name = t ∧
      ∀ j, ∀ hj : j < inv.length, j < k → normName (inv.get ⟨j, hj⟩).name ≠ t) := by
  induction inv generalizing i with
  | nil => exact Or.inl ⟨rfl, by simp⟩
  | cons r rest ih =>
    by_cases h : normName r.name = t
    · right
      refine ⟨0, by simp, ?_, by simpa using h, ?_⟩
      · simp [linear_search_from, h]
      · intro j hj hj0; omega
    · rcases ih (i + 1) with ⟨hval, hnone⟩ | ⟨k, hk, hval, hmatch, hfirst⟩
      · left
        refine ⟨by simp [linear_search_from, h, hval], ?_⟩
        intro x hx
        rcases List.mem_cons.mp hx with rfl | hx
        · exact h
        · exact hnone x hx
      · right
        refine ⟨k + 1, by simpa using Nat.succ_lt_succ hk, ?_, ?_, ?_⟩
        · simp only [linear_search_from, h, if_false]
          rw [hval]; congr 1; omega
        · simpa using hmatch
        · intro j hj hjk
          cases j with
          | zero => simpa using h
          | succ j' =>
            have hj' : j' < rest.length := by simpa using hj
            have := hfirst j' hj' (by omega)
            simpa using this

/-- Claim C4: `linear_search` returns the smallest index of a record whose
whitespace-stripped, lowercased name equals the whitespace-stripped,
lowercased search name, and the sentinel `-1` when no record matches (the
function is total, so it never throws). -/
theorem claim_C4_find_by_name (inv : List Record) (n : PyStr) :
    (linear_search inv n = -1 ∧ ∀ r ∈ inv, normName r.name ≠ normName n) ∨
    (∃ k, ∃ hk : k < inv.length,
      linear_search inv n = Int.ofNat k ∧
      normName (inv.get ⟨k, hk⟩).name = normName n ∧
      ∀ j, ∀ hj : j < inv.length, j < k →
        normName (inv.get ⟨j, hj⟩).name ≠ normName n) := by
  have := linear_search_from_spec inv (normName n) 0
  simpa [linear_search] using this

/-! Auxiliary facts about `pyStrip`. -/

theorem dropWhile_dropWhile_space (l : PyStr) :
    (l.dropWhile isSpaceChar).dropWhile isSpaceChar = l.dropWhile isSpaceChar := by
  induction l with
  | nil => rfl
  | cons c t ih =>
    by_cases h : isSpaceChar c
    · simp [List.dropWhile_cons, h, ih]
    · simp [List.dropWhile_cons, h]

theorem length_dropWhile_le' (p : Char → Bool) (l : PyStr) :
    (l.dropWhile p).length ≤ l.length := by
  induction l with
  | nil => simp
  | cons c t ih =>
    by_cases h : p c
    · simp only [List.dropWhile_cons, h, if_true, List.length_cons]; omega
    · simp [List.dropWhile_cons, h]

theorem stripEnd_idem (l : PyStr) : stripEnd (stripEnd l) = stripEnd l := by
  simp [stripEnd, dropWhile_dropWhile_space]

theorem dropWhile_stripEnd (l : PyStr) (h : l.dropWhile isSpaceChar = l) :
    (stripEnd l).dropWhile isSpaceChar = stripEnd l := by
  cases l with
  | nil => rfl
  | cons c t =>
    have hc : isSpaceChar c = false := by
      by_contra hcc
      have hc' : isSpaceChar c = true := by
        cases hx : isSpaceChar c with
        | false => exact absurd hx hcc
        | true => rfl
      rw [List.dropWhile_cons, hc', if_pos rfl] at h
      have hle := length_dropWhile_le' isSpaceChar t
      have hlen : (List.dropWhile isSpaceChar t).length = t.length + 1 := by
        rw [h, List.length_cons]
      omega
    show ((c :: t).reverse.dropWhile isSpaceChar).reverse.dropWhile isSpaceChar
        = ((c :: t).reverse.dropWhile isSpaceChar).reverse
    rw [List.reverse_cons, List.dropWhile_append]
    by_cases he : (t.reverse.dropWhile isSpaceChar).isEmpty = true
    · rw [if_pos he]
      simp [List.dropWhile_cons, hc]
    · rw [if_neg he, List.reverse_append]
      simp [List.dropWhile_cons, hc]

theorem pyStrip_idem (s : PyStr) : pyStrip (pyStrip s) = pyStrip s := by
  show pyStrip (stripEnd (s.dropWhile isSpaceChar)) = pyStrip s
  unfold pyStrip
  rw [dropWhile_stripEnd _ (dropWhile_dropWhile_space s), stripEnd_idem]

theorem pyStrip_eq_self (s : PyStr) (h : ∀ c ∈ s, isSpaceChar c = false) :
    pyStrip s = s := by
  have h1 : s.dropWhile isSpaceChar = s := by
    cases s with
    | nil => rfl
    | cons c t => simp [List.dropWhile_cons, h c (by simp)]
  have h2 : s.reverse.dropWhile isSpaceChar = s.reverse := by
    cases hr : s.reverse with
    | nil => rfl
    | cons c t =>
      have hc : c ∈ s := by
        rw [← List.mem_reverse, hr]; simp
      simp [List.dropWhile_cons, h c hc]
  unfold pyStrip stripEnd
  rw [h1, h2, List.reverse_reverse]

theorem pyIsDigit_ne_nil (s : PyStr) (h : pyIsDigit s = true) : s ≠ [] := by
  intro hnil
  subst hnil
  simp [pyIsDigit] at h

theorem pyInt_of_isdigit (s : PyStr) (h : pyIsDigit s = true) :
    pyInt s = some (Int.ofNat (digitsVal s)) := by
  have hne : s ≠ [] := pyIsDigit_ne_nil s h
  have hall : ∀ c ∈ s, isDigitChar c = true := by
    intro c hc
    have := (List.all_eq_true).mp (by simpa [pyIsDigit, hne] using h) c hc
    simpa using this
  have hnospace : ∀ c ∈ s, isSpaceChar c = false := by
    intro c hc
    cases hx : isSpaceChar c with
    | false => rfl
    | true =>
      exfalso
      have hd := hall c hc
      simp only [isSpaceChar, Bool.or_eq_true, decide_eq_true_eq] at hx
      rcases hx with ((((h1 | h1) | h1) | h1) | h1) | h1 <;>
        (subst h1; exact absurd hd (by decide))
  rw [pyInt, pyStrip_eq_self s hnospace]
  cases s with
  | nil => exact absurd rfl hne
  | cons c ds =>
    have hc : isDigitChar c = true := hall c (by simp)
    have hplus : c ≠ '+' := by
      intro hh; subst hh; simp [isDigitChar] at hc
    have hminus : c ≠ '-' := by
      intro hh; subst hh; simp [isDigitChar] at hc
    simp only [hplus, hminus, if_false]
    rw [digitRun, if_pos]
    simp only [List.isEmpty_cons, Bool.not_false, Bool.true_and, List.all_eq_true]
    intro x hx
    exact hall x hx

/-! Model of `add_item` (lines 386-436) and `update_selected`
(lines 438-477).  Each GUI callback becomes a pure function from the
current inventory and the stripped form inputs to the inventory after the
call together with an outcome tag; the `messagebox.askyesno` merge
confirmation of `add_item` is the `mergeYes` argument. -/

/-- Outcome of one `add_item` call. -/
inductive AddResult where
  | missingNameQty
  | nonIntQty
  | missingProd
  | merged
  | cancelled
  | raised
  | dupProd
  | appended
deriving DecidableEq, Repr

/-- Model of `GyeonInventoryApp.add_item`: validate the inputs, merge the
quantity into the first record with the same normalised name when the
user confirms, otherwise check product-number uniqueness and append.  The
`raised` outcome models the uncaught `ValueError` of
`int(self.inventory[idx]["quantity"])` when the stored quantity is not
parseable; the store is unchanged in that case. -/
def add_item (inv : List Record) (nameE catE qtyE prodE : PyStr) (mergeYes : Bool) :
    List Record × AddResult :=
  if pyStrip nameE = [] ∨ pyStrip qtyE = [] then (inv, .missingNameQty)
  else if ¬ pyIsDigit (pyStrip qtyE) then (inv, .nonIntQty)
  else if pyStrip prodE = [] then (inv, .missingProd)
  else if linear_search inv (pyStrip nameE) ≠ -1 then
    if mergeYes then
      match pyInt ((inv.getD (linear_search inv (pyStrip nameE)).toNat default).quantity),
            pyInt (pyStrip qtyE) with
      | some a, some b =>
        (inv.set (linear_search inv (pyStrip nameE)).toNat
          { inv.getD (linear_search inv (pyStrip nameE)).toNat default with
            quantity := pyIntStr (a + b) }, .merged)
      | _, _ => (inv, .raised)
    else (inv, .cancelled)
  else if inv.any (fun itm => pyStrip itm.product_number == pyStrip prodE) then
    (inv, .dupProd)
  else (inv ++ [⟨pyStrip prodE, pyStrip nameE, pyStrip catE, pyStrip qtyE⟩], .appended)

/-- Outcome of one `update_selected` call. -/
inductive UpdResult where
  | indexError
  | dupProd
  | badQty
  | ok
deriving DecidableEq, Repr

/-- Duplicate check of `update_selected`: some record at an index other
than `idx` has a stripped product number equal to `p`. -/
def dupOther (inv : List Record) (idx : Nat) (p : PyStr) : Bool :=
  (List.range inv.length).any
    (fun i => i != idx && pyStrip ((inv.getD i default).product_number) == p)

/-- Final quantity step of `update_selected`: an empty quantity patch
keeps the current value, a non-numeric one rejects the call (after the
earlier per-field writes already took effect), a numeric one overwrites. -/
def updQtyStep (inv : List Record) (idx : Nat) (qty : PyStr) (it : Record) :
    List Record × UpdResult :=
  if qty = [] then (inv.set idx it, .ok)
  else if pyIsDigit qty then (inv.set idx { it with quantity := qty }, .ok)
  else (inv.set idx it, .badQty)

/-- First two in-place writes of `update_selected`: a non-empty name
patch, then a non-empty category patch. -/
def updItem2 (old : Record) (name category : PyStr) : Record :=
  if category = [] then (if name = [] then old else { old with name := name })
  else { (if name = [] then old else { old with name := name }) with
         category := category }

/-- Model of `GyeonInventoryApp.update_selected` for a selected index
`idx`: the record's fields are overwritten one after the other (name,
category, product number, quantity); each non-empty patch that was
written before a failed check stays written, exactly as the in-place dict
mutation of the source behaves. -/
def update_selected (inv : List Record) (idx : Nat) (nameE catE qtyE prodE : PyStr) :
    List Record × UpdResult :=
  if idx < inv.length then
    if pyStrip prodE = [] then
      updQtyStep inv idx (pyStrip qtyE) (updItem2 (inv.getD idx default) (pyStrip nameE) (pyStrip catE))
    else if dupOther inv idx (pyStrip prodE) then
      (inv.set idx (updItem2 (inv.getD idx default) (pyStrip nameE) (pyStrip catE)), .dupProd)
    else
      updQtyStep inv idx (pyStrip qtyE)
        { updItem2 (inv.getD idx default) (pyStrip nameE) (pyStrip catE) with
          product_number := pyStrip prodE }
  else (inv, .indexError)

/-- Closed form of the first two writes. -/
theorem updItem2_eq (old : Record) (n c : PyStr) :
    updItem2 old n c =
      { old with
        name := if n = [] then old.name else n,
        category := if c = [] then old.category else c } := by
  by_cases h1 : n = [] <;> by_cases h2 : c = [] <;> simp [updItem2, h1, h2]

/-! Invariant I1 and helper lemmas about `List.set` / `List.getD`. -/

/-- Invariant I1 of the spec: no two records share a non-empty
`product_number` (raw string comparison). -/
def I1 (inv : List Record) : Prop :=
  ∀ i < inv.length, ∀ j < inv.length, i < j →
    (inv.getD i default).product_number = (inv.getD j default).product_number →
    (inv.getD i default).product_number = []

instance I1.decidable (inv : List Record) : Decidable (I1 inv) := by
  unfold I1
  infer_instance

theorem getD_set_self (l : List Record) (i : Nat) (a : Record) (hi : i < l.length) :
    (l.set i a).getD i default = a := by
  rw [List.getD_eq_getElem _ _ (by simpa using hi), List.getElem_set_self]

theorem getD_set_ne (l : List Record) (i j : Nat) (a : Record) (h : i ≠ j) :
    (l.set i a).getD j default = l.getD j default := by
  rw [List.getD_eq_getElem?_getD, List.getD_eq_getElem?_getD, List.getElem?_set_ne h]

theorem dupOther_false_iff (inv : List Record) (idx : Nat) (p : PyStr) :
    dupOther inv idx p = false ↔
      ∀ i, i < inv.length → i ≠ idx →
        pyStrip ((inv.getD i default).product_number) ≠ p := by
  unfold dupOther
  rw [List.any_eq_false]
  constructor
  · intro h i hi hne
    have := h i (List.mem_range.mpr hi)
    simpa [hne] using this
  · intro h i hi
    have hi' := List.mem_range.mp hi
    by_cases hne : i = idx
    · simp [hne]
    · simpa [hne] using h i hi' hne

theorem I1_set_pn_eq (inv : List Record) (idx : Nat) (it : Record)
    (h : I1 inv)
    (hpn : it.product_number = (inv.getD idx default).product_number) :
    I1 (inv.set idx it) := by
  intro i hi j hj hij heq
  simp only [List.length_set] at hi hj
  by_cases hi' : i = idx <;> by_cases hj' : j = idx
  · omega
  · subst hi'
    rw [getD_set_self inv i it hi,
        getD_set_ne inv i j it (fun hh => hj' hh.symm)] at heq
    rw [getD_set_self inv i it hi]
    rw [hpn] at heq ⊢
    exact h i hi j hj hij heq
  · subst hj'
    rw [getD_set_ne inv j i it (by omega), getD_set_self inv j it hj] at heq
    rw [getD_set_ne inv j i it (by omega)]
    rw [hpn] at heq
    exact h i hi j hj hij heq
  · rw [getD_set_ne inv idx i it (fun hh => hi' hh.symm),
        getD_set_ne inv idx j it (fun hh => hj' hh.symm)] at heq
    rw [getD_set_ne inv idx i it (fun hh => hi' hh.symm)]
    exact h i hi j hj hij heq

theorem I1_set_pn_new (inv : List Record) (idx : Nat) (it : Record) (p : PyStr)
    (h : I1 inv)
    (hit : it.product_number = p)
    (hps : pyStrip p = p)
    (hno : ∀ i, i < inv.length → i ≠ idx →
      pyStrip ((inv.getD i default).product_number) ≠ p) :
    I1 (inv.set idx it) := by
  intro i hi j hj hij heq
  simp only [List.length_set] at hi hj
  by_cases hi' : i = idx <;> by_cases hj' : j = idx
  · omega
  · subst hi'
    exfalso
    rw [getD_set_self inv i it hi,
        getD_set_ne inv i j it (fun hh => hj' hh.symm), hit] at heq
    exact hno j hj hj' (by rw [← heq, hps])
  · subst hj'
    exfalso
    rw [getD_set_ne inv j i it (fun hh => hi' (hh.symm)),
        getD_set_self inv j it hj, hit] at heq
    exact hno i hi hi' (by rw [heq, hps])
  · rw [getD_set_ne inv idx i it (fun hh => hi' hh.symm),
        getD_set_ne inv idx j it (fun hh => hj' hh.symm)] at heq
    rw [getD_set_ne inv idx i it (fun hh => hi' hh.symm)]
    exact h i hi j hj hij heq

theorem getD_append_left (l m : List Record) (i : Nat) (hi : i < l.length) :
    (l ++ m).getD i default = l.getD i default := by
  rw [List.getD_eq_getElem?_getD, List.getD_eq_getElem?_getD,
    List.getElem?_append_left hi]

theorem I1_append (inv : List Record) (r : Record)
    (h : I1 inv)
    (hps : pyStrip r.product_number = r.product_number)
    (hno : ∀ itm ∈ inv, pyStrip itm.product_number ≠ r.product_number) :
    I1 (inv ++ [r]) := by
  intro i hi j hj hij heq
  simp only [List.length_append, List.length_cons, List.length_nil] at hi hj
  by_cases hj' : j < inv.length
  · rw [getD_append_left inv [r] i (by omega), getD_append_left inv [r] j hj'] at heq
    rw [getD_append_left inv [r] i (by omega)]
    exact h i (by omega) j hj' hij heq
  · have hj'' : j = inv.length := by omega
    have hi' : i < inv.length := by omega
    have hr : (inv ++ [r]).getD j default = r := by
      rw [List.getD_eq_getElem?_getD, hj'', List.getElem?_append_right (le_refl _)]
      simp
    rw [getD_append_left inv [r] i hi', hr] at heq
    exfalso
    have hmem : inv.getD i default ∈ inv := by
      rw [List.getD_eq_getElem _ _ hi']
      exact List.getElem_mem hi'
    exact hno _ hmem (by rw [heq, hps])

theorem linear_search_toNat_lt (inv : List Record) (n : PyStr)
    (h : linear_search inv n ≠ -1) :
    (linear_search inv n).toNat < inv.length := by
  rcases linear_search_from_spec inv (normName n) 0 with ⟨hv, _⟩ | ⟨k, hk, hv, _, _⟩
  · exact absurd (by simpa [linear_search] using hv) h
  · have heq : linear_search inv n = Int.ofNat k := by simpa [linear_search] using hv
    rw [heq]
    simpa using hk

/-! Claims C1, C2, C6, C10 about `add_item` / `update_selected`. -/

theorem I1_updQtyStep_pn_eq (inv : List Record) (idx : Nat) (qty : PyStr) (it : Record)
    (h : I1 inv)
    (hpn : it.product_number = (inv.getD idx default).product_number) :
    I1 (updQtyStep inv idx qty it).1 := by
  unfold updQtyStep
  by_cases h1 : qty = []
  · rw [if_pos h1]
    exact I1_set_pn_eq inv idx it h hpn
  · rw [if_neg h1]
    by_cases h2 : pyIsDigit qty = true
    · rw [if_pos h2]
      exact I1_set_pn_eq inv idx _ h hpn
    · rw [if_neg h2]
      exact I1_set_pn_eq inv idx it h hpn

theorem I1_updQtyStep_pn_new (inv : List Record) (idx : Nat) (qty : PyStr)
    (it : Record) (p : PyStr)
    (h : I1 inv)
    (hit : it.product_number = p)
    (hps : pyStrip p = p)
    (hno : ∀ i, i < inv.length → i ≠ idx →
      pyStrip ((inv.getD i default).product_number) ≠ p) :
    I1 (updQtyStep inv idx qty it).1 := by
  unfold updQtyStep
  by_cases h1 : qty = []
  · rw [if_pos h1]
    exact I1_set_pn_new inv idx it p h hit hps hno
  · rw [if_neg h1]
    by_cases h2 : pyIsDigit qty = true
    · rw [if_pos h2]
      exact I1_set_pn_new inv idx _ p h hit hps hno
    · rw [if_neg h2]
      exact I1_set_pn_new inv idx it p h hit hps hno

/-- Claim C2: both `add_item` and `update_selected` preserve invariant I1
(no two records share a non-empty raw `product_number`), for every input
combination and every confirmation answer. -/
theorem claim_C2_uniqueness_invariant (inv : List Record)
    (nameE catE qtyE prodE : PyStr) (mergeYes : Bool) (idx : Nat)
    (h : I1 inv) :
    I1 (add_item inv nameE catE qtyE prodE mergeYes).1 ∧
    I1 (update_selected inv idx nameE catE qtyE prodE).1 := by
  constructor
  · unfold add_item
    by_cases h1 : pyStrip nameE = [] ∨ pyStrip qtyE = []
    · rw [if_pos h1]; exact h
    rw [if_neg h1]
    by_cases h2 : ¬ pyIsDigit (pyStrip qtyE) = true
    · rw [if_pos h2]; exact h
    rw [if_neg h2]
    by_cases h3 : pyStrip prodE = []
    · rw [if_pos h3]; exact h
    rw [if_neg h3]
    by_cases h4 : linear_search inv (pyStrip nameE) ≠ -1
    · rw [if_pos h4]
      cases mergeYes with
      | false => rw [if_neg (by simp)]; exact h
      | true =>
        rw [if_pos rfl]
        cases hpa : pyInt ((inv.getD (linear_search inv (pyStrip nameE)).toNat
            default).quantity) with
        | none =>
          cases hpb : pyInt (pyStrip qtyE) with
          | none => simp only [hpa, hpb]; exact h
          | some b => simp only [hpa, hpb]; exact h
        | some a =>
          cases hpb : pyInt (pyStrip qtyE) with
          | none => simp only [hpa, hpb]; exact h
          | some b =>
            simp only [hpa, hpb]
            exact I1_set_pn_eq inv _ _ h rfl
    · rw [if_neg h4]
      by_cases h6 : inv.any (fun itm => pyStrip itm.product_number == pyStrip prodE) = true
      · rw [if_pos h6]; exact h
      · rw [if_neg h6]
        have h6' : inv.any (fun itm => pyStrip itm.product_number == pyStrip prodE)
            = false := by
          cases hx : inv.any (fun itm => pyStrip itm.product_number == pyStrip prodE) with
          | false => rfl
          | true => exact absurd hx h6
        have hno := List.any_eq_false.mp h6'
        apply I1_append inv _ h (pyStrip_idem prodE)
        intro itm hm
        have := hno itm hm
        simpa using this
  · unfold update_selected
    by_cases h0 : idx < inv.length
    · rw [if_pos h0]
      by_cases hpn : pyStrip prodE = []
      · rw [if_pos hpn]
        apply I1_updQtyStep_pn_eq inv idx _ _ h
        rw [updItem2_eq]
      · rw [if_neg hpn]
        by_cases hdup : dupOther inv idx (pyStrip prodE) = true
        · rw [if_pos hdup]
          apply I1_set_pn_eq inv idx _ h
          rw [updItem2_eq]
        · rw [if_neg hdup]
          have hdup' : dupOther inv idx (pyStrip prodE) = false := by
            cases hx : dupOther inv idx (pyStrip prodE) with
            | false => rfl
            | true => exact absurd hx hdup
          apply I1_updQtyStep_pn_new inv idx _ _ (pyStrip prodE) h rfl
            (pyStrip_idem prodE)
          exact (dupOther_false_iff inv idx (pyStrip prodE)).mp hdup'
    · rw [if_neg h0]; exact h

/-- Concrete instance of claim C2 with every hypothesis discharged. -/
theorem claim_C2_witness :
    I1 (add_item
        [⟨"P1".data, "a".data, "c".data, "1".data⟩,
         ⟨"P2".data, "b".data, "c".data, "2".data⟩]
        "b".data [] "7".data "P3".data true).1 ∧
    I1 (update_selected
        [⟨"P1".data, "a".data, "c".data, "1".data⟩,
         ⟨"P2".data, "b".data, "c".data, "2".data⟩]
        0 "b".data [] "7".data "P3".data).1 :=
  claim_C2_uniqueness_invariant
    [⟨"P1".data, "a".data, "c".data, "1".data⟩,
     ⟨"P2".data, "b".data, "c".data, "2".data⟩]
    "b".data [] "7".data "P3".data true 0 (by decide)

/-- Shape of a merge-confirmed `add_item` call: once the inputs validate
and `linear_search` finds the name at `idx`, the result depends only on
the two integer conversions; `category` and `product_number` do not
appear in it. -/
theorem add_item_merge_shape (inv : List Record) (nameE catE qtyE prodE : PyStr)
    (idx : Nat)
    (hname : pyStrip nameE ≠ [])
    (hq : pyIsDigit (pyStrip qtyE) = true)
    (hp : pyStrip prodE ≠ [])
    (hfound : linear_search inv (pyStrip nameE) = (idx : Int)) :
    add_item inv nameE catE qtyE prodE true =
      match pyInt ((inv.getD idx default).quantity), pyInt (pyStrip qtyE) with
      | some a, some b =>
        (inv.set idx { inv.getD idx default with quantity := pyIntStr (a + b) },
          AddResult.merged)
      | _, _ => (inv, AddResult.raised) := by
  have hqne : pyStrip qtyE ≠ [] := pyIsDigit_ne_nil _ hq
  have h1 : ¬ (pyStrip nameE = [] ∨ pyStrip qtyE = []) :=
    fun hc => hc.elim hname hqne
  have h4 : linear_search inv (pyStrip nameE) ≠ -1 := by
    rw [hfound]; omega
  unfold add_item
  rw [if_neg h1, if_neg (by simp [hq]), if_neg hp, if_pos h4, if_pos rfl, hfound]
  simp

/-- Claim C6: a merge-confirmed add onto a store whose first
name-matching record sits at `idx` replaces that record's quantity by the
decimal string of the sum of the two parsed quantities and changes
nothing else; the record count is unchanged. -/
theorem claim_C6_merge_on_add (inv : List Record) (nameE catE qtyE prodE : PyStr)
    (idx : Nat) (a b : Int)
    (hname : pyStrip nameE ≠ [])
    (hq : pyIsDigit (pyStrip qtyE) = true)
    (hp : pyStrip prodE ≠ [])
    (hfound : linear_search inv (pyStrip nameE) = (idx : Int))
    (ha : pyInt ((inv.getD idx default).quantity) = some a)
    (hb : pyInt (pyStrip qtyE) = some b) :
    add_item inv nameE catE qtyE prodE true =
      (inv.set idx { inv.getD idx default with quantity := pyIntStr (a + b) },
        AddResult.merged) ∧
    (add_item inv nameE catE qtyE prodE true).1.length = inv.length := by
  have hshape := add_item_merge_shape inv nameE catE qtyE prodE idx hname hq hp hfound
  rw [hshape, ha, hb]
  exact ⟨rfl, by simp⟩

/-- Concrete instance of claim C6: the spec's own scenario (quantity 5
merged with quantity 3 gives the string "8", still one record). -/
theorem claim_C6_witness :
    add_item [⟨"P1".data, "Wax A".data, "Coating & Wax".data, "5".data⟩]
        "Wax A".data "Coating & Wax".data "3".data "P1".data true =
      (([⟨"P1".data, "Wax A".data, "Coating & Wax".data, "5".data⟩] : List Record).set 0
        { ([⟨"P1".data, "Wax A".data, "Coating & Wax".data, "5".data⟩] : List Record).getD
            0 default with
          quantity := pyIntStr (5 + 3) },
        AddResult.merged) ∧
    (add_item [⟨"P1".data, "Wax A".data, "Coating & Wax".data, "5".data⟩]
        "Wax A".data "Coating & Wax".data "3".data "P1".data true).1.length =
      ([⟨"P1".data, "Wax A".data, "Coating & Wax".data, "5".data⟩] : List Record).length :=
  claim_C6_merge_on_add
    [⟨"P1".data, "Wax A".data, "Coating & Wax".data, "5".data⟩]
    "Wax A".data "Coating & Wax".data "3".data "P1".data 0 5 3
    (by decide) (by decide) (by decide) (by decide) (by decide) (by decide)

/-- Claim C10: a merge-confirmed add only ever touches the quantity field
of the matched record — length, the other records, and the matched
record's name, category and product number are untouched (also when the
stored quantity fails to parse and the call raises), and the result does
not depend on the entered category or product number at all: no
uniqueness check is run against them. -/
theorem claim_C10_merge_frame (inv : List Record) (nameE catE qtyE prodE : PyStr)
    (idx : Nat)
    (hname : pyStrip nameE ≠ [])
    (hq : pyIsDigit (pyStrip qtyE) = true)
    (hp : pyStrip prodE ≠ [])
    (hfound : linear_search inv (pyStrip nameE) = (idx : Int)) :
    (add_item inv nameE catE qtyE prodE true).1.length = inv.length ∧
    (∀ j, j ≠ idx →
      (add_item inv nameE catE qtyE prodE true).1.getD j default
        = inv.getD j default) ∧
    ((add_item inv nameE catE qtyE prodE true).1.getD idx default).name
      = (inv.getD idx default).name ∧
    ((add_item inv nameE catE qtyE prodE true).1.getD idx default).category
      = (inv.getD idx default).category ∧
    ((add_item inv nameE catE qtyE prodE true).1.getD idx default).product_number
      = (inv.getD idx default).product_number ∧
    (∀ catE2 prodE2, pyStrip prodE2 ≠ [] →
      add_item inv nameE catE2 qtyE prodE2 true
        = add_item inv nameE catE qtyE prodE true) := by
  have hidx : idx < inv.length := by
    have hne : linear_search inv (pyStrip nameE) ≠ -1 := by rw [hfound]; omega
    have := linear_search_toNat_lt inv (pyStrip nameE) hne
    rw [hfound] at this
    simpa using this
  have hshape := add_item_merge_shape inv nameE catE qtyE prodE idx hname hq hp hfound
  rw [hshape]
  cases hpa : pyInt ((inv.getD idx default).quantity) with
  | none =>
    cases hpb : pyInt (pyStrip qtyE) with
    | none =>
      refine ⟨rfl, fun j hj => rfl, rfl, rfl, rfl, fun c2 p2 hp2 => ?_⟩
      rw [add_item_merge_shape inv nameE c2 qtyE p2 idx hname hq hp2 hfound, hpa, hpb]
    | some b =>
      refine ⟨rfl, fun j hj => rfl, rfl, rfl, rfl, fun c2 p2 hp2 => ?_⟩
      rw [add_item_merge_shape inv nameE c2 qtyE p2 idx hname hq hp2 hfound, hpa, hpb]
  | some a =>
    cases hpb : pyInt (pyStrip qtyE) with
    | none =>
      refine ⟨rfl, fun j hj => rfl, rfl, rfl, rfl, fun c2 p2 hp2 => ?_⟩
      rw [add_item_merge_shape inv nameE c2 qtyE p2 idx hname hq hp2 hfound, hpa, hpb]
    | some b =>
      refine ⟨by simp, fun j hj => getD_set_ne inv idx j _ (fun hh => hj hh.symm),
        ?_, ?_, ?_, fun c2 p2 hp2 => ?_⟩
      · rw [getD_set_self inv idx _ hidx]
      · rw [getD_set_self inv idx _ hidx]
      · rw [getD_set_self inv idx _ hidx]
      · rw [add_item_merge_shape inv nameE c2 qtyE p2 idx hname hq hp2 hfound, hpa, hpb]

/-- Concrete instance of claim C10: the entered product number duplicates
the matched record's own and the merge still proceeds; category and
product number inputs are interchangeable. -/
theorem claim_C10_witness :
    (add_item [⟨"P9".data, "Pad".data, "Pads".data, "2".data⟩]
        "Pad".data "Maintenance".data "4".data "P9".data true).1.length =
      ([⟨"P9".data, "Pad".data, "Pads".data, "2".data⟩] : List Record).length ∧
    ((add_item [⟨"P9".data, "Pad".data, "Pads".data, "2".data⟩]
        "Pad".data "Maintenance".data "4".data "P9".data true).1.getD 0
        default).product_number
      = (([⟨"P9".data, "Pad".data, "Pads".data, "2".data⟩] : List Record).getD 0
        default).product_number ∧
    add_item [⟨"P9".data, "Pad".data, "Pads".data, "2".data⟩]
        "Pad".data "x".data "4".data "P8".data true
      = add_item [⟨"P9".data, "Pad".data, "Pads".data, "2".data⟩]
        "Pad".data "Maintenance".data "4".data "P9".data true := by
  have h := claim_C10_merge_frame
    [⟨"P9".data, "Pad".data, "Pads".data, "2".data⟩]
    "Pad".data "Maintenance".data "4".data "P9".data 0
    (by decide) (by decide) (by decide) (by decide)
  exact ⟨h.1, h.2.2.2.2.1, h.2.2.2.2.2 "x".data "P8".data (by decide)⟩

/-- Closed form of the record after the name and category writes of a
rejected update (product number and quantity untouched). -/
def updPatched2 (old : Record) (nameE catE : PyStr) : Record :=
  { old with
    name := if pyStrip nameE = [] then old.name else pyStrip nameE,
    category := if pyStrip catE = [] then old.category else pyStrip catE }

/-- Closed form of the record after the name, category and product-number
writes of an update rejected at the quantity check. -/
def updPatched3 (old : Record) (nameE catE prodE : PyStr) : Record :=
  { updPatched2 old nameE catE with
    product_number :=
      if pyStrip prodE = [] then old.product_number else pyStrip prodE }

theorem updItem2_patched (old : Record) (nameE catE : PyStr) :
    updItem2 old (pyStrip nameE) (pyStrip catE) = updPatched2 old nameE catE := by
  rw [updItem2_eq]; rfl

theorem updPatched3_empty (old : Record) (nameE catE prodE : PyStr)
    (h : pyStrip prodE = []) :
    updPatched3 old nameE catE prodE = updPatched2 old nameE catE := by
  unfold updPatched3
  rw [if_pos h]
  rfl

theorem updPatched3_ne (old : Record) (nameE catE prodE : PyStr)
    (h : ¬ pyStrip prodE = []) :
    updPatched3 old nameE catE prodE =
      { updPatched2 old nameE catE with product_number := pyStrip prodE } := by
  unfold updPatched3
  rw [if_neg h]

/-- Claim C1 fails on the code as stated: here a rejected update (it
trips the duplicate product-number check) still changes the store,
because the non-empty name patch was written in place before the check
ran. -/
theorem claim_C1_counterexample :
    (update_selected
        [⟨"A".data, "x".data, "c".data, "1".data⟩,
         ⟨"B".data, "y".data, "c".data, "2".data⟩]
        0 "z".data [] [] "B".data).2 = UpdResult.dupProd ∧
    (update_selected
        [⟨"A".data, "x".data, "c".data, "1".data⟩,
         ⟨"B".data, "y".data, "c".data, "2".data⟩]
        0 "z".data [] [] "B".data).1 ≠
      [⟨"A".data, "x".data, "c".data, "1".data⟩,
       ⟨"B".data, "y".data, "c".data, "2".data⟩] := by
  constructor <;> decide

/-- Claim C1 (amended): a rejected update preserves the store's length
and every record other than the selected one, and never touches the
selected record's quantity; but the name and category patches (and, for a
quantity rejection, the product-number patch) written before the failing
check stay applied.  The store after rejection is characterised exactly. -/
theorem claim_C1_rejected_update (inv : List Record) (idx : Nat)
    (nameE catE qtyE prodE : PyStr)
    (hidx : idx < inv.length) :
    ((update_selected inv idx nameE catE qtyE prodE).2 = UpdResult.dupProd →
      (update_selected inv idx nameE catE qtyE prodE).1 =
        inv.set idx (updPatched2 (inv.getD idx default) nameE catE)) ∧
    ((update_selected inv idx nameE catE qtyE prodE).2 = UpdResult.badQty →
      (update_selected inv idx nameE catE qtyE prodE).1 =
        inv.set idx (updPatched3 (inv.getD idx default) nameE catE prodE)) := by
  unfold update_selected
  rw [if_pos hidx]
  by_cases hpn : pyStrip prodE = []
  · rw [if_pos hpn]
    unfold updQtyStep
    by_cases hq1 : pyStrip qtyE = []
    · rw [if_pos hq1]
      exact ⟨fun hc => (nomatch hc), fun hc => (nomatch hc)⟩
    · rw [if_neg hq1]
      by_cases hq2 : pyIsDigit (pyStrip qtyE) = true
      · rw [if_pos hq2]
        exact ⟨fun hc => (nomatch hc), fun hc => (nomatch hc)⟩
      · rw [if_neg hq2]
        refine ⟨fun hc => (nomatch hc), fun _ => ?_⟩
        rw [updPatched3_empty _ _ _ _ hpn]
        show inv.set idx (updItem2 (inv.getD idx default) (pyStrip nameE) (pyStrip catE))
            = inv.set idx (updPatched2 (inv.getD idx default) nameE catE)
        rw [updItem2_patched]
  · rw [if_neg hpn]
    by_cases hdup : dupOther inv idx (pyStrip prodE) = true
    · rw [if_pos hdup]
      refine ⟨fun _ => ?_, fun hc => (nomatch hc)⟩
      show inv.set idx (updItem2 (inv.getD idx default) (pyStrip nameE) (pyStrip catE))
          = inv.set idx (updPatched2 (inv.getD idx default) nameE catE)
      rw [updItem2_patched]
    · rw [if_neg hdup]
      unfold updQtyStep
      by_cases hq1 : pyStrip qtyE = []
      · rw [if_pos hq1]
        exact ⟨fun hc => (nomatch hc), fun hc => (nomatch hc)⟩
      · rw [if_neg hq1]
        by_cases hq2 : pyIsDigit (pyStrip qtyE) = true
        · rw [if_pos hq2]
          exact ⟨fun hc => (nomatch hc), fun hc => (nomatch hc)⟩
        · rw [if_neg hq2]
          refine ⟨fun hc => (nomatch hc), fun _ => ?_⟩
          rw [updPatched3_ne _ _ _ _ hpn, updItem2_patched]

/-- Concrete instances of the amended claim C1: a duplicate-product-number
rejection that keeps the name patch, and a non-numeric-quantity rejection
that keeps nothing but rewrites nothing else either. -/
theorem claim_C1_witness :
    (update_selected
        [⟨"A".data, "x".data, "c".data, "1".data⟩,
         ⟨"B".data, "y".data, "c".data, "2".data⟩]
        0 "z".data [] [] "B".data).1 =
      [⟨"A".data, "x".data, "c".data, "1".data⟩,
       ⟨"B".data, "y".data, "c".data, "2".data⟩].set 0
        (updPatched2 ([⟨"A".data, "x".data, "c".data, "1".data⟩,
          ⟨"B".data, "y".data, "c".data, "2".data⟩].getD 0 default)
          "z".data []) ∧
    (update_selected [⟨"A".data, "x".data, "c".data, "1".data⟩]
        0 [] [] "q".data []).1 =
      [⟨"A".data, "x".data, "c".data, "1".data⟩].set 0
        (updPatched3 ([⟨"A".data, "x".data, "c".data, "1".data⟩].getD 0 default)
          [] [] []) :=
  ⟨(claim_C1_rejected_update
      [⟨"A".data, "x".data, "c".data, "1".data⟩,
       ⟨"B".data, "y".data, "c".data, "2".data⟩]
      0 "z".data [] [] "B".data (by decide)).1 (by decide),
   (claim_C1_rejected_update [⟨"A".data, "x".data, "c".data, "1".data⟩]
      0 [] [] "q".data [] (by decide)).2 (by decide)⟩

/-! Claim C7: snapshot position resolution of the filtered views
(`realtime_filter`, `filter_by_category`, `refresh_treeview`). -/

/-- Model of Python's `needle in hay` substring test on strings. -/
def pyContains (hay needle : PyStr) : Bool :=
  match hay with
  | [] => needle.isEmpty
  | _ :: t => needle.isPrefixOf hay || pyContains t needle

/-- Predicate of the realtime substring filter (lines 514-516); the
keyword is already `strip().lower()`-processed by the caller (line 510). -/
def substrPred (keyword : PyStr) (it : Record) : Bool :=
  pyContains (pyLower it.name) keyword || pyContains (pyLower it.product_number) keyword

/-- Snapshot produced by `realtime_filter` for a non-empty processed
keyword. -/
def realtime_filtered (inv : List Record) (keyword : PyStr) : List Record :=
  inv.filter (substrPred keyword)

/-- Predicate of the category filter (line 621). -/
def catPred (sel : PyStr) (it : Record) : Bool :=
  pyLower (pyStrip it.category) == pyLower sel

/-- Snapshot produced by `filter_by_category` for a selected category. -/
def category_filtered (inv : List Record) (sel : PyStr) : List Record :=
  inv.filter (catPred sel)

/-- Scan of Python's `list.index` with a running position. -/
def pyIndexFrom (i : Nat) (inv : List Record) (x : Record) : Option Nat :=
  match inv with
  | [] => none
  | r :: t => if r = x then some i else pyIndexFrom (i + 1) t x

/-- Model of the iid resolution in the filtered branch of
`refresh_treeview` (lines 538-543): `self.inventory.index(item)` wrapped
in try/except, so the first store position holding an equal record, or
`none` when the record is absent. -/
def pyIndex (inv : List Record) (x : Record) : Option Nat :=
  pyIndexFrom 0 inv x

/-- Store positions a filter's snapshot entries actually come from, in
snapshot order. -/
def srcIdxFrom (n : Nat) (p : Record → Bool) : List Record → List Nat
  | [] => []
  | r :: t =>
    if p r then n :: srcIdxFrom (n + 1) p t else srcIdxFrom (n + 1) p t

/-- Originating store indices of the records selected by `p`. -/
def sourceIndices (inv : List Record) (p : Record → Bool) : List Nat :=
  srcIdxFrom 0 p inv

theorem getD_append_self (pre t : List Record) (r : Record) :
    (pre ++ r :: t).getD pre.length default = r := by
  rw [List.getD_eq_getElem?_getD, List.getElem?_append_right (le_refl _)]
  simp

theorem srcIdxFrom_map_getD (p : Record → Bool) (suf pre : List Record) :
    (srcIdxFrom pre.length p suf).map (fun i => (pre ++ suf).getD i default)
      = suf.filter p := by
  induction suf generalizing pre with
  | nil => simp [srcIdxFrom]
  | cons r t ih =>
    have hsplit : pre ++ r :: t = (pre ++ [r]) ++ t := by simp
    have hlen : pre.length + 1 = (pre ++ [r]).length := by simp
    by_cases hp : p r = true
    · simp only [srcIdxFrom, hp, if_true, List.map_cons, List.filter_cons, hp]
      refine (List.cons_eq_cons).mpr ⟨?_, ?_⟩
      · exact getD_append_self pre t r
      · rw [hsplit, hlen]
        exact ih (pre ++ [r])
    · simp only [srcIdxFrom, hp, if_false, List.filter_cons,
        Bool.false_eq_true]
      rw [hsplit, hlen]
      exact ih (pre ++ [r])

theorem pyIndexFrom_cons (i : Nat) (a : Record) (l : List Record) (x : Record) :
    pyIndexFrom i (a :: l) x = if a = x then some i else pyIndexFrom (i + 1) l x :=
  rfl

theorem pyIndexFrom_append (t pre : List Record) (r : Record) (i : Nat)
    (h : r ∉ pre) :
    pyIndexFrom i (pre ++ r :: t) r = some (i + pre.length) := by
  induction pre generalizing i with
  | nil => simp [pyIndexFrom]
  | cons a pre' ih =>
    have hne : a ≠ r := fun hh => h (by simp [hh])
    have h' : r ∉ pre' := fun hh => h (by simp [hh])
    rw [List.cons_append, pyIndexFrom_cons, if_neg hne, ih (i + 1) h',
      List.length_cons]
    congr 1
    omega

theorem filter_map_pyIndex (p : Record → Bool) (suf pre : List Record)
    (h : (pre ++ suf).Nodup) :
    (suf.filter p).map (pyIndex (pre ++ suf))
      = (srcIdxFrom pre.length p suf).map some := by
  induction suf generalizing pre with
  | nil => simp [srcIdxFrom]
  | cons r t ih =>
    have hsplit : pre ++ r :: t = (pre ++ [r]) ++ t := by simp
    have hlen : pre.length + 1 = (pre ++ [r]).length := by simp
    have hnotpre : r ∉ pre := by
      intro hm
      rcases List.nodup_append.mp h with ⟨-, -, hdisj⟩
      exact hdisj hm (by simp)
    have h2 : ((pre ++ [r]) ++ t).Nodup := by rw [← hsplit]; exact h
    by_cases hp : p r = true
    · simp only [List.filter_cons, hp, if_true, List.map_cons, srcIdxFrom]
      refine (List.cons_eq_cons).mpr ⟨?_, ?_⟩
      · have := pyIndexFrom_append t pre r 0 hnotpre
        simpa [pyIndex] using this
      · have := ih (pre ++ [r]) h2
        rw [hsplit, hlen]
        exact this
    · simp only [List.filter_cons, hp, Bool.false_eq_true, if_false, srcIdxFrom]
      have := ih (pre ++ [r]) h2
      rw [hsplit, hlen]
      exact this

/-- Claim C7 fails on the code as stated: with two records holding
identical field values, both snapshot entries of the substring filter
resolve to store index 0, so the entry that came from index 1 is resolved
to the wrong record. -/
theorem claim_C7_counterexample :
    (realtime_filtered
        [⟨"x".data, "a".data, "c".data, "1".data⟩,
         ⟨"x".data, "a".data, "c".data, "1".data⟩] "a".data).map
      (pyIndex
        [⟨"x".data, "a".data, "c".data, "1".data⟩,
         ⟨"x".data, "a".data, "c".data, "1".data⟩])
      ≠ (sourceIndices
          [⟨"x".data, "a".data, "c".data, "1".data⟩,
           ⟨"x".data, "a".data, "c".data, "1".data⟩]
          (substrPred "a".data)).map some := by
  decide

/-- Claim C7 (amended): every snapshot entry of the substring filter and
of the category filter resolves to the smallest store index holding an
equal record; when the store has no two equal records this is exactly the
occurrence the entry came from (the lists of resolved iids and of
originating indices coincide, and reading the store at the originating
indices reproduces the snapshot), but with duplicate records a later
occurrence resolves to the first one's index. -/
theorem claim_C7_snapshot_resolution (inv : List Record) (kw sel : PyStr)
    (h : inv.Nodup) :
    (realtime_filtered inv kw).map (pyIndex inv)
      = (sourceIndices inv (substrPred kw)).map some ∧
    (category_filtered inv sel).map (pyIndex inv)
      = (sourceIndices inv (catPred sel)).map some ∧
    (sourceIndices inv (substrPred kw)).map (fun i => inv.getD i default)
      = realtime_filtered inv kw ∧
    (sourceIndices inv (catPred sel)).map (fun i => inv.getD i default)
      = category_filtered inv sel := by
  refine ⟨?_, ?_, ?_, ?_⟩
  · have := filter_map_pyIndex (substrPred kw) inv [] (by simpa using h)
    simpa [sourceIndices, realtime_filtered] using this
  · have := filter_map_pyIndex (catPred sel) inv [] (by simpa using h)
    simpa [sourceIndices, category_filtered] using this
  · have := srcIdxFrom_map_getD (substrPred kw) inv []
    simpa [sourceIndices, realtime_filtered] using this
  · have := srcIdxFrom_map_getD (catPred sel) inv []
    simpa [sourceIndices, category_filtered] using this

/-- Concrete instance of the amended claim C7 on a duplicate-free store. -/
theorem claim_C7_witness :
    (realtime_filtered
        [⟨"P1-A".data, "Wax".data, "c".data, "1".data⟩,
         ⟨"Q2".data, "Pad".data, "c".data, "2".data⟩] "p1".data).map
      (pyIndex
        [⟨"P1-A".data, "Wax".data, "c".data, "1".data⟩,
         ⟨"Q2".data, "Pad".data, "c".data, "2".data⟩])
      = (sourceIndices
          [⟨"P1-A".data, "Wax".data, "c".data, "1".data⟩,
           ⟨"Q2".data, "Pad".data, "c".data, "2".data⟩]
          (substrPred "p1".data)).map some ∧
    (category_filtered
        [⟨"P1-A".data, "Wax".data, "c".data, "1".data⟩,
         ⟨"Q2".data, "Pad".data, "c".data, "2".data⟩] "C".data).map
      (pyIndex
        [⟨"P1-A".data, "Wax".data, "c".data, "1".data⟩,
         ⟨"Q2".data, "Pad".data, "c".data, "2".data⟩])
      = (sourceIndices
          [⟨"P1-A".data, "Wax".data, "c".data, "1".data⟩,
           ⟨"Q2".data, "Pad".data, "c".data, "2".data⟩]
          (catPred "C".data)).map some :=
  have h := claim_C7_snapshot_resolution
    [⟨"P1-A".data, "Wax".data, "c".data, "1".data⟩,
     ⟨"Q2".data, "Pad".data, "c".data, "2".data⟩]
    "p1".data "C".data (by decide)
  ⟨h.1, h.2.1⟩

/-! Model of `bubble_sort` (lines 54-91).  One call runs up to `n` passes;
pass `i` makes `n - i - 1` adjacent comparisons on the first `n - i`
positions and stops the whole sort when a pass swaps nothing.  The
comparison for the `quantity` key can raise (`int(...)` on a
non-parseable string), so the comparator returns `Option Bool` and the
sort returns `none` when a comparison raises.  Beside the sorted list the
model returns the number of swaps and the number of executed passes. -/

section BubbleSortDefs

variable {α : Type}

/-- One bounded bubble pass with a raising comparator: `m` is the number
of adjacent comparisons left (`n - i - 1` in the source), the `Nat` is
the number of swaps made. -/
def bpassO (cmp : α → α → Option Bool) : Nat → List α → Option (List α × Nat)
  | _, [] => some ([], 0)
  | 0, l => some (l, 0)
  | _ + 1, [a] => some ([a], 0)
  | m + 1, a :: b :: t =>
    match cmp a b with
    | none => none
    | some true =>
      match bpassO cmp m (a :: t) with
      | none => none
      | some p => some (b :: p.1, p.2 + 1)
    | some false =>
      match bpassO cmp m (b :: t) with
      | none => none
      | some p => some (a :: p.1, p.2)

/-- Outer loop of `bubble_sort` with a raising comparator: `k` passes
remain, the current pass makes `m` comparisons, and the loop breaks as
soon as a pass swaps nothing.  Returns the list, the total number of
swaps and the number of executed passes. -/
def bloopO (cmp : α → α → Option Bool) : Nat → Nat → List α → Option (List α × Nat × Nat)
  | 0, _, l => some (l, 0, 0)
  | k + 1, m, l =>
    match bpassO cmp m l with
    | none => none
    | some p =>
      if p.2 = 0 then some (p.1, 0, 1)
      else
        match bloopO cmp k (m - 1) p.1 with
        | none => none
        | some q => some (q.1, p.2 + q.2.1, 1 + q.2.2)

/-- Model of `bubble_sort(inventory, key)` for a comparator that can
raise: `n` passes at most, the first one making `n - 1` comparisons. -/
def bubble_sort (cmp : α → α → Option Bool) (l : List α) :
    Option (List α × Nat × Nat) :=
  bloopO cmp l.length (l.length - 1) l

/-- Pure bounded bubble pass (used for the keys whose comparator cannot
raise, and as the reference the raising version is reduced to). -/
def bpass (gt : α → α → Bool) : Nat → List α → List α × Nat
  | _, [] => ([], 0)
  | 0, l => (l, 0)
  | _ + 1, [a] => ([a], 0)
  | m + 1, a :: b :: t =>
    if gt a b then
      let p := bpass gt m (a :: t)
      (b :: p.1, p.2 + 1)
    else
      let p := bpass gt m (b :: t)
      (a :: p.1, p.2)

/-- Pure outer loop. -/
def bloop (gt : α → α → Bool) : Nat → Nat → List α → List α × Nat × Nat
  | 0, _, l => (l, 0, 0)
  | k + 1, m, l =>
    let p := bpass gt m l
    if p.2 = 0 then (p.1, 0, 1)
    else
      let q := bloop gt k (m - 1) p.1
      (q.1, p.2 + q.2.1, 1 + q.2.2)

/-- Pure bubble sort. -/
def bsort (gt : α → α → Bool) (l : List α) : List α × Nat × Nat :=
  bloop gt l.length (l.length - 1) l

/-- Strict "greater" comparator induced by a measure into a linear
order; all four key comparators of the source have this shape. -/
def gtOf {β : Type} [LinearOrder β] (f : α → β) (x y : α) : Bool :=
  decide (f y < f x)

end BubbleSortDefs

/-- Sort keys accepted by `sort_items` (line 560). -/
inductive SortKey where
  | name
  | product_number
  | quantity
  | category
deriving DecidableEq, Repr

/-- Category rank used by the category sort: position in
`CATEGORY_ORDER`, and its length (4) for categories outside the list
(the `except` branch of `cat_index`). -/
def cat_index (v : PyStr) : Nat :=
  CATEGORY_ORDER.indexOf v

/-- Comparator of one `bubble_sort` comparison for each key, `some true`
meaning the adjacent pair must swap.  The `quantity` comparison parses
both quantities and raises (`none`) when either fails. -/
def cmpKey : SortKey → Record → Record → Option Bool
  | .name, x, y => some (decide (pyLower y.name < pyLower x.name))
  | .product_number, x, y =>
    some (decide (pyLower y.product_number < pyLower x.product_number))
  | .quantity, x, y =>
    match pyInt x.quantity, pyInt y.quantity with
    | some a, some b => some (decide (b < a))
    | _, _ => none
  | .category, x, y => some (decide (cat_index y.category < cat_index x.category))

/-- Model of `sort_items`: run the bubble sort on the store with the
key's comparator (`none` models the uncaught raise). -/
def sort_items (k : SortKey) (inv : List Record) : Option (List Record) :=
  (bubble_sort (cmpKey k) inv).map (fun r => r.1)

section BubbleSortLemmas

variable {α : Type}

theorem bpass_nil (gt : α → α → Bool) (m : Nat) : bpass gt m [] = ([], 0) := by
  cases m <;> rfl

theorem bpass_zero (gt : α → α → Bool) (l : List α) : bpass gt 0 l = (l, 0) := by
  cases l <;> rfl

theorem bpass_one (gt : α → α → Bool) (m : Nat) (a : α) :
    bpass gt m [a] = ([a], 0) := by
  cases m <;> rfl

theorem bpass_cons2 (gt : α → α → Bool) (m : Nat) (a b : α) (t : List α) :
    bpass gt (m + 1) (a :: b :: t) =
      if gt a b = true then
        (b :: (bpass gt m (a :: t)).1, (bpass gt m (a :: t)).2 + 1)
      else
        (a :: (bpass gt m (b :: t)).1, (bpass gt m (b :: t)).2) := by
  rw [bpass]

theorem bloop_succ (gt : α → α → Bool) (k m : Nat) (l : List α) :
    bloop gt (k + 1) m l =
      if (bpass gt m l).2 = 0 then ((bpass gt m l).1, 0, 1)
      else ((bloop gt k (m - 1) (bpass gt m l).1).1,
        (bpass gt m l).2 + (bloop gt k (m - 1) (bpass gt m l).1).2.1,
        1 + (bloop gt k (m - 1) (bpass gt m l).1).2.2) :=
  rfl

theorem bpass_perm (gt : α → α → Bool) :
    ∀ (m : Nat) (l : List α), ((bpass gt m l).1).Perm l := by
  intro m
  induction m with
  | zero => intro l; rw [bpass_zero]
  | succ m ih =>
    intro l
    match l with
    | [] => rw [bpass_nil]
    | [a] => rw [bpass_one]
    | a :: b :: t =>
      rw [bpass_cons2]
      by_cases h : gt a b = true
      · rw [if_pos h]
        exact ((ih (a :: t)).cons b).trans (List.Perm.swap a b t)
      · rw [if_neg h]
        exact (ih (b :: t)).cons a

theorem bloop_perm (gt : α → α → Bool) :
    ∀ (k m : Nat) (l : List α), ((bloop gt k m l).1).Perm l := by
  intro k
  induction k with
  | zero => intro m l; exact List.Perm.refl l
  | succ k ih =>
    intro m l
    rw [bloop_succ]
    by_cases h : (bpass gt m l).2 = 0
    · rw [if_pos h]
      exact bpass_perm gt m l
    · rw [if_neg h]
      exact (ih (m - 1) (bpass gt m l).1).trans (bpass_perm gt m l)

theorem bsort_perm (gt : α → α → Bool) (l : List α) : ((bsort gt l).1).Perm l :=
  bloop_perm gt l.length (l.length - 1) l

theorem bpass_zero_swaps (gt : α → α → Bool) :
    ∀ (m : Nat) (l : List α), (bpass gt m l).2 = 0 → (bpass gt m l).1 = l := by
  intro m
  induction m with
  | zero => intro l h; rw [bpass_zero]
  | succ m ih =>
    intro l h
    match l with
    | [] => rw [bpass_nil]
    | [a] => rw [bpass_one]
    | a :: b :: t =>
      rw [bpass_cons2] at h ⊢
      by_cases hg : gt a b = true
      · rw [if_pos hg] at h
        simp at h
      · rw [if_neg hg] at h ⊢
        simp only at h
        rw [ih (b :: t) h]

theorem bpass_pairwise (gt : α → α → Bool) (R : α → α → Prop)
    (hswap : ∀ x y, gt x y = true → R y x) :
    ∀ (m : Nat) (l : List α), l.Pairwise R → ((bpass gt m l).1).Pairwise R := by
  intro m
  induction m with
  | zero => intro l h; rw [bpass_zero]; exact h
  | succ m ih =>
    intro l h
    match l with
    | [] => rw [bpass_nil]; exact h
    | [a] => rw [bpass_one]; exact h
    | a :: b :: t =>
      rcases List.pairwise_cons.mp h with ⟨ha, h2⟩
      rcases List.pairwise_cons.mp h2 with ⟨hb, ht⟩
      rw [bpass_cons2]
      by_cases hg : gt a b = true
      · rw [if_pos hg]
        refine List.pairwise_cons.mpr ⟨?_, ?_⟩
        · intro y hy
          have hy' : y ∈ a :: t := (bpass_perm gt m (a :: t)).mem_iff.mp hy
          rcases List.mem_cons.mp hy' with rfl | hy''
          · exact hswap _ _ hg
          · exact hb y hy''
        · refine ih (a :: t) ?_
          refine List.pairwise_cons.mpr ⟨?_, ht⟩
          intro y hy
          exact ha y (List.mem_cons_of_mem b hy)
      · rw [if_neg hg]
        refine List.pairwise_cons.mpr ⟨?_, ?_⟩
        · intro y hy
          have hy' : y ∈ b :: t := (bpass_perm gt m (b :: t)).mem_iff.mp hy
          rcases List.mem_cons.mp hy' with rfl | hy''
          · exact ha _ (List.mem_cons_self _ _)
          · exact ha _ (List.mem_cons_of_mem b hy'')
        · exact ih (b :: t) h2

theorem bloop_pairwise (gt : α → α → Bool) (R : α → α → Prop)
    (hswap : ∀ x y, gt x y = true → R y x) :
    ∀ (k m : Nat) (l : List α), l.Pairwise R → ((bloop gt k m l).1).Pairwise R := by
  intro k
  induction k with
  | zero => intro m l h; exact h
  | succ k ih =>
    intro m l h
    rw [bloop_succ]
    by_cases hz : (bpass gt m l).2 = 0
    · rw [if_pos hz]
      exact bpass_pairwise gt R hswap m l h
    · rw [if_neg hz]
      exact ih (m - 1) (bpass gt m l).1 (bpass_pairwise gt R hswap m l h)

theorem bsort_pairwise (gt : α → α → Bool) (R : α → α → Prop)
    (hswap : ∀ x y, gt x y = true → R y x)
    (l : List α) (h : l.Pairwise R) : ((bsort gt l).1).Pairwise R :=
  bloop_pairwise gt R hswap l.length (l.length - 1) l h

theorem bpass_append (gt : α → α → Bool) :
    ∀ (u : List α) (a : α) (v : List α),
      bpass gt u.length ((a :: u) ++ v) =
        ((bpass gt u.length (a :: u)).1 ++ v, (bpass gt u.length (a :: u)).2) := by
  intro u
  induction u with
  | nil =>
    intro a v
    rw [List.length_nil, bpass_zero, bpass_zero]
  | cons b u ih =>
    intro a v
    rw [List.length_cons, List.cons_append, List.cons_append, bpass_cons2,
      bpass_cons2]
    by_cases h : gt a b = true
    · rw [if_pos h, if_pos h, ← List.cons_append a u v, ih a v]
      simp
    · rw [if_neg h, if_neg h, ← List.cons_append b u v, ih b v]
      simp

theorem bpass_max {β : Type} [LinearOrder β] (f : α → β) :
    ∀ (u : List α) (a : α),
      ∃ w x, (bpass (gtOf f) u.length (a :: u)).1 = w ++ [x] ∧
        ∀ y ∈ a :: u, f y ≤ f x := by
  intro u
  induction u with
  | nil =>
    intro a
    refine ⟨[], a, by simp [bpass_zero], ?_⟩
    intro y hy
    rcases List.mem_cons.mp hy with rfl | hy
    · exact le_refl _
    · simp at hy
  | cons b u ih =>
    intro a
    rw [List.length_cons, bpass_cons2]
    by_cases h : gtOf f a b = true
    · rcases ih a with ⟨w, x, hw, hx⟩
      rw [if_pos h]
      refine ⟨b :: w, x, by rw [hw, List.cons_append], ?_⟩
      intro y hy
      have hba : f b < f a := by
        have := h
        simpa [gtOf] using this
      rcases List.mem_cons.mp hy with rfl | hy'
      · exact hx _ (List.mem_cons_self _ _)
      · rcases List.mem_cons.mp hy' with rfl | hy''
        · exact le_of_lt (lt_of_lt_of_le hba (hx _ (List.mem_cons_self _ _)))
        · exact hx _ (List.mem_cons_of_mem a hy'')
    · rcases ih b with ⟨w, x, hw, hx⟩
      rw [if_neg h]
      refine ⟨a :: w, x, by rw [hw, List.cons_append], ?_⟩
      intro y hy
      have hab : f a ≤ f b := by
        have hh : ¬ f b < f a := by
          intro hc
          exact h (by simpa [gtOf] using hc)
        exact le_of_not_lt hh
      rcases List.mem_cons.mp hy with rfl | hy'
      · exact le_trans hab (hx _ (List.mem_cons_self _ _))
      · exact hx _ hy'

theorem bpass_zero_sorted {β : Type} [LinearOrder β] (f : α → β) :
    ∀ (m : Nat) (l : List α), (bpass (gtOf f) m l).2 = 0 →
      List.Chain' (fun x y => f x ≤ f y) (l.take (m + 1)) := by
  intro m
  induction m with
  | zero =>
    intro l h
    cases l with
    | nil => simp
    | cons a t => simp
  | succ m ih =>
    intro l h
    match l with
    | [] => simp
    | [a] => simp
    | a :: b :: t =>
      rw [bpass_cons2] at h
      by_cases hg : gtOf f a b = true
      · rw [if_pos hg] at h
        simp at h
      · rw [if_neg hg] at h
        simp only at h
        have hab : f a ≤ f b := by
          refine le_of_not_lt fun hc => hg ?_
          simpa [gtOf] using hc
        rw [List.take_succ_cons, List.take_succ_cons]
        have := ih (b :: t) h
        rw [List.take_succ_cons] at this
        exact List.chain'_cons.mpr ⟨hab, this⟩

theorem bloop_sorted_inv {β : Type} [LinearOrder β] (f : α → β) :
    ∀ (k m : Nat) (pre suf : List α),
      pre.length = m + 1 → m + 1 ≤ k →
      List.Chain' (fun x y => f x ≤ f y) suf →
      (∀ x ∈ pre, ∀ y ∈ suf, f x ≤ f y) →
      List.Chain' (fun x y => f x ≤ f y) ((bloop (gtOf f) k m (pre ++ suf)).1) := by
  intro k
  induction k with
  | zero =>
    intro m pre suf hlen hk hsuf hcross
    omega
  | succ k ih =>
    intro m pre suf hlen hk hsuf hcross
    cases pre with
    | nil => simp at hlen
    | cons a u =>
      have hm : u.length = m := by
        rw [List.length_cons] at hlen
        omega
      subst hm
      rw [bloop_succ, bpass_append (gtOf f) u a suf]
      by_cases hz : (bpass (gtOf f) u.length (a :: u)).2 = 0
      · rw [if_pos (show ((bpass (gtOf f) u.length (a :: u)).1 ++ suf,
            (bpass (gtOf f) u.length (a :: u)).2).2 = 0 from hz)]
        show List.Chain' (fun x y => f x ≤ f y)
          ((bpass (gtOf f) u.length (a :: u)).1 ++ suf)
        rw [bpass_zero_swaps (gtOf f) u.length (a :: u) hz]
        refine List.chain'_append.mpr ⟨?_, hsuf, ?_⟩
        · have := bpass_zero_sorted f u.length (a :: u) hz
          have htake : (a :: u).take (u.length + 1) = a :: u := by
            have : (a :: u).length = u.length + 1 := by simp
            rw [← this, List.take_length]
          rwa [htake] at this
        · intro x hx y hy
          exact hcross x (List.mem_of_mem_getLast? hx) y (List.mem_of_mem_head? hy)
      · rw [if_neg (show ¬ ((bpass (gtOf f) u.length (a :: u)).1 ++ suf,
            (bpass (gtOf f) u.length (a :: u)).2).2 = 0 from hz)]
        show List.Chain' (fun x y => f x ≤ f y)
          ((bloop (gtOf f) k (u.length - 1)
            (((bpass (gtOf f) u.length (a :: u)).1 ++ suf,
              (bpass (gtOf f) u.length (a :: u)).2).1)).1)
        rcases bpass_max f u a with ⟨w, x, hw, hx⟩
        have hulen : 1 ≤ u.length := by
          by_contra hc
          have hu0 : u.length = 0 := by omega
          have hnil : u = [] := List.length_eq_zero.mp hu0
          subst hnil
          rw [List.length_nil, bpass_zero] at hz
          exact hz rfl
        have hplen : (bpass (gtOf f) u.length (a :: u)).1.length = u.length + 1 := by
          rw [(bpass_perm (gtOf f) u.length (a :: u)).length_eq]
          simp
        have hwlen : w.length = u.length := by
          rw [hw] at hplen
          rw [List.length_append] at hplen
          simp at hplen
          omega
        have hmemP : ∀ z ∈ (bpass (gtOf f) u.length (a :: u)).1, z ∈ a :: u :=
          fun z hz2 => (bpass_perm (gtOf f) u.length (a :: u)).mem_iff.mp hz2
        have hxmem : x ∈ a :: u := by
          apply hmemP
          rw [hw]
          simp
        have hgoal : (bpass (gtOf f) u.length (a :: u)).1 ++ suf = w ++ (x :: suf) := by
          rw [hw, List.append_assoc, List.singleton_append]
        rw [hgoal]
        refine ih (u.length - 1) w (x :: suf) (by omega) (by omega) ?_ ?_
        · refine List.chain'_cons'.mpr ⟨?_, hsuf⟩
          intro y hy
          exact hcross x hxmem y (List.mem_of_mem_head? hy)
        · intro z hzw y hy
          have hzpre : z ∈ a :: u := by
            apply hmemP
            rw [hw]
            exact List.mem_append_left [x] hzw
          rcases List.mem_cons.mp hy with rfl | hy'
          · exact hx z hzpre
          · exact hcross z hzpre y hy'

theorem bsort_sorted {β : Type} [LinearOrder β] (f : α → β) (l : List α) :
    List.Chain' (fun x y => f x ≤ f y) ((bsort (gtOf f) l).1) := by
  cases l with
  | nil => simp [bsort, bloop]
  | cons a u =>
    have h := bloop_sorted_inv f (a :: u).length u.length (a :: u) []
      (by simp) (by simp) List.chain'_nil (by simp)
    rw [List.append_nil] at h
    have hlen : (a :: u).length - 1 = u.length := by simp
    unfold bsort
    rw [hlen]
    exact h

theorem bpass_map_snd (gt : α → α → Bool) :
    ∀ (m : Nat) (tl : List (Nat × α)),
      (bpass (fun p q => gt p.2 q.2) m tl).1.map Prod.snd
          = (bpass gt m (tl.map Prod.snd)).1 ∧
      (bpass (fun p q => gt p.2 q.2) m tl).2
          = (bpass gt m (tl.map Prod.snd)).2 := by
  intro m
  induction m with
  | zero =>
    intro tl
    rw [bpass_zero, bpass_zero]
    exact ⟨rfl, rfl⟩
  | succ m ih =>
    intro tl
    match tl with
    | [] => rw [bpass_nil]; simp [bpass_nil]
    | [p] => rw [bpass_one]; simp [bpass_one]
    | p :: q :: t =>
      rw [List.map_cons, List.map_cons, bpass_cons2, bpass_cons2]
      by_cases h : gt p.2 q.2 = true
      · rw [if_pos h, if_pos h]
        have h1 := (ih (p :: t)).1
        have h2 := (ih (p :: t)).2
        rw [List.map_cons] at h1 h2
        constructor
        · rw [List.map_cons, h1]
        · simpa using h2
      · rw [if_neg h, if_neg h]
        have h1 := (ih (q :: t)).1
        have h2 := (ih (q :: t)).2
        rw [List.map_cons] at h1 h2
        constructor
        · rw [List.map_cons, h1]
        · exact h2

theorem bloop_map_snd (gt : α → α → Bool) :
    ∀ (k m : Nat) (tl : List (Nat × α)),
      (bloop (fun p q => gt p.2 q.2) k m tl).1.map Prod.snd
        = (bloop gt k m (tl.map Prod.snd)).1 := by
  intro k
  induction k with
  | zero => intro m tl; rfl
  | succ k ih =>
    intro m tl
    rw [bloop_succ, bloop_succ]
    have h1 := (bpass_map_snd gt m tl).1
    have h2 := (bpass_map_snd gt m tl).2
    by_cases hz : (bpass gt m (tl.map Prod.snd)).2 = 0
    · rw [if_pos (h2.trans hz), if_pos hz]
      exact h1
    · rw [if_neg (fun hc => hz (h2.symm.trans hc)), if_neg hz]
      have := ih (m - 1) (bpass (fun p q => gt p.2 q.2) m tl).1
      rw [h1] at this
      exact this

theorem bsort_map_snd (gt : α → α → Bool) (tl : List (Nat × α)) :
    (bsort (fun p q => gt p.2 q.2) tl).1.map Prod.snd
      = (bsort gt (tl.map Prod.snd)).1 := by
  unfold bsort
  rw [List.length_map]
  exact bloop_map_snd gt tl.length (tl.length - 1) tl

/-! Reduction of the raising sort to the pure sort when every comparison
that can occur is defined, plus direct lemmas for the already-sorted and
the raising cases. -/

theorem bpassO_nil (cmp : α → α → Option Bool) (m : Nat) :
    bpassO cmp m [] = some ([], 0) := by
  cases m <;> rfl

theorem bpassO_zero (cmp : α → α → Option Bool) (l : List α) :
    bpassO cmp 0 l = some (l, 0) := by
  cases l <;> rfl

theorem bpassO_one (cmp : α → α → Option Bool) (m : Nat) (a : α) :
    bpassO cmp m [a] = some ([a], 0) := by
  cases m <;> rfl

theorem bpassO_cons2 (cmp : α → α → Option Bool) (m : Nat) (a b : α) (t : List α) :
    bpassO cmp (m + 1) (a :: b :: t) =
      match cmp a b with
      | none => none
      | some true =>
        match bpassO cmp m (a :: t) with
        | none => none
        | some p => some (b :: p.1, p.2 + 1)
      | some false =>
        match bpassO cmp m (b :: t) with
        | none => none
        | some p => some (a :: p.1, p.2) := by
  rw [bpassO]

theorem bloopO_succ (cmp : α → α → Option Bool) (k m : Nat) (l : List α) :
    bloopO cmp (k + 1) m l =
      match bpassO cmp m l with
      | none => none
      | some p =>
        if p.2 = 0 then some (p.1, 0, 1)
        else
          match bloopO cmp k (m - 1) p.1 with
          | none => none
          | some q => some (q.1, p.2 + q.2.1, 1 + q.2.2) := by
  rw [bloopO]

theorem bpassO_eq (cmp : α → α → Option Bool) (gt : α → α → Bool) (S : List α)
    (hagree : ∀ x ∈ S, ∀ y ∈ S, cmp x y = some (gt x y)) :
    ∀ (m : Nat) (l : List α), (∀ x ∈ l, x ∈ S) →
      bpassO cmp m l = some (bpass gt m l) := by
  intro m
  induction m with
  | zero =>
    intro l hsub
    rw [bpassO_zero, bpass_zero]
  | succ m ih =>
    intro l hsub
    match l with
    | [] => rw [bpassO_nil, bpass_nil]
    | [a] => rw [bpassO_one, bpass_one]
    | a :: b :: t =>
      have hab : cmp a b = some (gt a b) :=
        hagree a (hsub a (by simp)) b (hsub b (by simp))
      have hsub1 : ∀ x ∈ a :: t, x ∈ S := by
        intro x hx
        rcases List.mem_cons.mp hx with rfl | hx'
        · exact hsub x (by simp)
        · exact hsub x (by simp [hx'])
      have hsub2 : ∀ x ∈ b :: t, x ∈ S := by
        intro x hx
        rcases List.mem_cons.mp hx with rfl | hx'
        · exact hsub x (by simp)
        · exact hsub x (by simp [hx'])
      rw [bpassO_cons2, bpass_cons2, hab]
      by_cases hg : gt a b = true
      · rw [hg, if_pos rfl, ih (a :: t) hsub1]
      · have hg' : gt a b = false := by
          cases hx : gt a b with
          | false => rfl
          | true => exact absurd hx hg
        rw [hg', if_neg (by simp), ih (b :: t) hsub2]

theorem bloopO_eq (cmp : α → α → Option Bool) (gt : α → α → Bool) (S : List α)
    (hagree : ∀ x ∈ S, ∀ y ∈ S, cmp x y = some (gt x y)) :
    ∀ (k m : Nat) (l : List α), (∀ x ∈ l, x ∈ S) →
      bloopO cmp k m l = some (bloop gt k m l) := by
  intro k
  induction k with
  | zero => intro m l hsub; rfl
  | succ k ih =>
    intro m l hsub
    rw [bloopO_succ, bloop_succ, bpassO_eq cmp gt S hagree m l hsub]
    show (if (bpass gt m l).2 = 0 then some ((bpass gt m l).1, 0, 1)
        else match bloopO cmp k (m - 1) (bpass gt m l).1 with
          | none => none
          | some q => some (q.1, (bpass gt m l).2 + q.2.1, 1 + q.2.2)) = _
    by_cases hz : (bpass gt m l).2 = 0
    · rw [if_pos hz, if_pos hz]
    · rw [if_neg hz, if_neg hz]
      have hsub' : ∀ x ∈ (bpass gt m l).1, x ∈ S := by
        intro x hx
        exact hsub x ((bpass_perm gt m l).mem_iff.mp hx)
      rw [ih (m - 1) (bpass gt m l).1 hsub']

theorem bubble_sort_eq (cmp : α → α → Option Bool) (gt : α → α → Bool)
    (l : List α)
    (hagree : ∀ x ∈ l, ∀ y ∈ l, cmp x y = some (gt x y)) :
    bubble_sort cmp l = some (bsort gt l) :=
  bloopO_eq cmp gt l hagree l.length (l.length - 1) l (fun _ hx => hx)

theorem bpassO_sorted (cmp : α → α → Option Bool) :
    ∀ (m : Nat) (l : List α),
      List.Chain' (fun x y => cmp x y = some false) l →
      bpassO cmp m l = some (l, 0) := by
  intro m
  induction m with
  | zero => intro l h; rw [bpassO_zero]
  | succ m ih =>
    intro l h
    match l with
    | [] => rw [bpassO_nil]
    | [a] => rw [bpassO_one]
    | a :: b :: t =>
      rcases List.chain'_cons.mp h with ⟨hab, ht⟩
      rw [bpassO_cons2, hab, ih (b :: t) ht]

theorem bubble_sort_sorted_no_swaps (cmp : α → α → Option Bool) (l : List α)
    (h : List.Chain' (fun x y => cmp x y = some false) l) :
    ∃ ps, bubble_sort cmp l = some (l, 0, ps) ∧ ps ≤ 1 := by
  cases l with
  | nil => exact ⟨0, rfl, by omega⟩
  | cons a t =>
    refine ⟨1, ?_, by omega⟩
    show bloopO cmp (a :: t).length ((a :: t).length - 1) (a :: t)
      = some (a :: t, 0, 1)
    have hlen : (a :: t).length = t.length + 1 := by simp
    rw [hlen]
    rw [bloopO_succ]
    rw [show t.length + 1 - 1 = t.length from by omega]
    rw [bpassO_sorted cmp t.length (a :: t) h]
    rfl

theorem bpassO_none (cmp : α → α → Option Bool) :
    ∀ (m : Nat) (l : List α),
      2 ≤ l.length → l.length ≤ m + 1 →
      (∃ x ∈ l, (∀ y, cmp x y = none) ∧ (∀ y, cmp y x = none)) →
      bpassO cmp m l = none := by
  intro m
  induction m with
  | zero =>
    intro l h2 hle hbad
    omega
  | succ m ih =>
    intro l h2 hle hbad
    match l with
    | [] => simp at h2
    | [a] => simp at h2
    | a :: b :: t =>
      rcases hbad with ⟨x, hx, hxl, hxr⟩
      rw [bpassO_cons2]
      rcases List.mem_cons.mp hx with rfl | hx'
      · rw [hxl b]
      · rcases List.mem_cons.mp hx' with rfl | hx''
        · rw [hxr a]
        · have hlen : (a :: b :: t).length = t.length + 2 := by simp
          have htne : t ≠ [] := List.ne_nil_of_mem hx''
          have htpos : 1 ≤ t.length := List.length_pos.mpr htne
          cases hc : cmp a b with
          | none => rfl
          | some v =>
            cases v with
            | true =>
              rw [ih (a :: t) (by simp; omega) (by simp at hle ⊢; omega)
                ⟨x, List.mem_cons_of_mem a hx'', hxl, hxr⟩]
            | false =>
              rw [ih (b :: t) (by simp; omega) (by simp at hle ⊢; omega)
                ⟨x, List.mem_cons_of_mem b hx'', hxl, hxr⟩]

theorem bubble_sort_raises (cmp : α → α → Option Bool) (l : List α)
    (h2 : 2 ≤ l.length)
    (hbad : ∃ x ∈ l, (∀ y, cmp x y = none) ∧ (∀ y, cmp y x = none)) :
    bubble_sort cmp l = none := by
  obtain ⟨k, hk⟩ : ∃ k, l.length = k + 2 := ⟨l.length - 2, by omega⟩
  unfold bubble_sort
  rw [hk]
  rw [show k + 2 = (k + 1) + 1 from rfl, bloopO_succ]
  rw [show k + 1 + 1 - 1 = k + 1 from by omega]
  rw [bpassO_none cmp (k + 1) l h2 (by omega) hbad]

theorem pairwise_fst_lt_enumFrom (l : List α) :
    ∀ n, (List.enumFrom n l).Pairwise (fun p q => p.1 < q.1) := by
  induction l with
  | nil => intro n; simp
  | cons a t ih =>
    intro n
    rw [List.enumFrom_cons]
    refine List.pairwise_cons.mpr ⟨?_, ih (n + 1)⟩
    intro q hq
    have h1 := (List.mem_enumFrom hq).1
    omega

theorem snd_mem_of_mem_enum (l : List α) (p : Nat × α) (h : p ∈ l.enum) :
    p.2 ∈ l := by
  rcases List.mem_enumFrom h with ⟨h1, h2, h3⟩
  rw [h3]
  exact List.getElem_mem _

/-- Full correctness package of one `bubble_sort` run whose comparator
agrees on the list's elements with the strict comparator of a measure
`f`: the run succeeds, permutes the list, sorts it (all pairs in
non-decreasing `f`-order, phrased through the comparator), and the run on
the index-tagged list projects to it and is stable (comparator-equal
records keep increasing original indices). -/
theorem bubble_master {β : Type} [LinearOrder β] (f : α → β)
    (cmp : α → α → Option Bool) (l : List α)
    (hag : ∀ x ∈ l, ∀ y ∈ l, cmp x y = some (gtOf f x y)) :
    ∃ l' sw ps o sw2 ps2,
      bubble_sort cmp l = some (l', sw, ps) ∧
      l'.Perm l ∧
      l'.Pairwise (fun x y => cmp x y = some false) ∧
      bubble_sort (fun p q => cmp p.2 q.2) l.enum = some (o, sw2, ps2) ∧
      o.map Prod.snd = l' ∧
      o.Perm l.enum ∧
      o.Pairwise (fun p q => cmp p.2 q.2 = some false →
        cmp q.2 p.2 = some false → p.1 < q.1) := by
  have h1 : bubble_sort cmp l = some (bsort (gtOf f) l) :=
    bubble_sort_eq cmp (gtOf f) l hag
  have hag2 : ∀ p ∈ l.enum, ∀ q ∈ l.enum,
      (fun p q : Nat × α => cmp p.2 q.2) p q
        = some ((fun p q : Nat × α => gtOf f p.2 q.2) p q) := by
    intro p hp q hq
    exact hag p.2 (snd_mem_of_mem_enum l p hp) q.2 (snd_mem_of_mem_enum l q hq)
  have h2 : bubble_sort (fun p q : Nat × α => cmp p.2 q.2) l.enum
      = some (bsort (fun p q : Nat × α => gtOf f p.2 q.2) l.enum) :=
    bubble_sort_eq _ _ l.enum hag2
  refine ⟨(bsort (gtOf f) l).1, (bsort (gtOf f) l).2.1, (bsort (gtOf f) l).2.2,
    (bsort (fun p q : Nat × α => gtOf f p.2 q.2) l.enum).1,
    (bsort (fun p q : Nat × α => gtOf f p.2 q.2) l.enum).2.1,
    (bsort (fun p q : Nat × α => gtOf f p.2 q.2) l.enum).2.2,
    h1, bsort_perm (gtOf f) l, ?_, h2, ?_, bsort_perm _ l.enum, ?_⟩
  · have hch := bsort_sorted f l
    haveI : IsTrans α (fun x y => f x ≤ f y) :=
      ⟨fun a b c hab hbc => le_trans hab hbc⟩
    have hpw := (List.chain'_iff_pairwise).mp hch
    refine List.Pairwise.imp_of_mem ?_ hpw
    intro a b ha hb hab
    have ha' : a ∈ l := (bsort_perm (gtOf f) l).mem_iff.mp ha
    have hb' : b ∈ l := (bsort_perm (gtOf f) l).mem_iff.mp hb
    rw [hag a ha' b hb']
    exact congrArg some (decide_eq_false (not_lt.mpr hab))
  · rw [bsort_map_snd (gtOf f) l.enum, List.enum_map_snd]
  · have h0 : l.enum.Pairwise (fun p q : Nat × α => f p.2 = f q.2 → p.1 < q.1) := by
      refine List.Pairwise.imp ?_ (pairwise_fst_lt_enumFrom l 0)
      intro p q h _
      exact h
    have hsw : ∀ p q : Nat × α,
        (fun p q : Nat × α => gtOf f p.2 q.2) p q = true →
        (fun p q : Nat × α => f p.2 = f q.2 → p.1 < q.1) q p := by
      intro p q hpq heq
      have hlt : f q.2 < f p.2 := by simpa [gtOf] using hpq
      exact absurd heq (ne_of_lt hlt)
    have hstab := bsort_pairwise _ _ hsw l.enum h0
    refine List.Pairwise.imp_of_mem ?_ hstab
    intro p q hp hq hRf h1' h2'
    have hp' : p.2 ∈ l :=
      snd_mem_of_mem_enum l p ((bsort_perm _ l.enum).mem_iff.mp hp)
    have hq' : q.2 ∈ l :=
      snd_mem_of_mem_enum l q ((bsort_perm _ l.enum).mem_iff.mp hq)
    have e1 : gtOf f p.2 q.2 = false := by
      have := (hag p.2 hp' q.2 hq').symm.trans h1'
      exact Option.some.inj this
    have e2 : gtOf f q.2 p.2 = false := by
      have := (hag q.2 hq' p.2 hp').symm.trans h2'
      exact Option.some.inj this
    have n1 : ¬ f q.2 < f p.2 := by simpa [gtOf] using e1
    have n2 : ¬ f p.2 < f q.2 := by simpa [gtOf] using e2
    exact hRf (le_antisymm (not_lt.mp n1) (not_lt.mp n2))

end BubbleSortLemmas

theorem cmpKey_quantity_agree (l : List Record)
    (hd : ∀ r ∈ l, pyIsDigit r.quantity = true) :
    ∀ x ∈ l, ∀ y ∈ l,
      cmpKey SortKey.quantity x y
        = some (gtOf (fun r : Record => (pyInt r.quantity).getD 0) x y) := by
  intro x hx y hy
  have hx' := pyInt_of_isdigit _ (hd x hx)
  have hy' := pyInt_of_isdigit _ (hd y hy)
  simp [cmpKey, gtOf, hx', hy']

/-- Claim C3: for every store and sort key (for the quantity key, under
invariant I2, whose failure case claim C9 treats), the bubble sort
returns a permutation of the store that is non-decreasing under the
key's comparator, and it is stable: the same run on the index-tagged
store projects onto it, and any two records comparing equal under the
key's comparator keep their original relative order (strictly increasing
original indices). -/
theorem claim_C3_sort_correct_stable (l : List Record) (k : SortKey)
    (hq : k = SortKey.quantity → ∀ r ∈ l, pyIsDigit r.quantity = true) :
    ∃ l' sw ps o sw2 ps2,
      bubble_sort (cmpKey k) l = some (l', sw, ps) ∧
      l'.Perm l ∧
      l'.Pairwise (fun x y => cmpKey k x y = some false) ∧
      bubble_sort (fun p q => cmpKey k p.2 q.2) l.enum = some (o, sw2, ps2) ∧
      o.map Prod.snd = l' ∧
      o.Perm l.enum ∧
      o.Pairwise (fun p q => cmpKey k p.2 q.2 = some false →
        cmpKey k q.2 p.2 = some false → p.1 < q.1) := by
  cases k with
  | name =>
    exact bubble_master (fun r : Record => pyLower r.name)
      (cmpKey SortKey.name) l (fun x _ y _ => rfl)
  | product_number =>
    exact bubble_master (fun r : Record => pyLower r.product_number)
      (cmpKey SortKey.product_number) l (fun x _ y _ => rfl)
  | quantity =>
    exact bubble_master (fun r : Record => (pyInt r.quantity).getD 0)
      (cmpKey SortKey.quantity) l (cmpKey_quantity_agree l (hq rfl))
  | category =>
    exact bubble_master (fun r : Record => cat_index r.category)
      (cmpKey SortKey.category) l (fun x _ y _ => rfl)

/-- Concrete instance of claim C3: a quantity sort on a two-record store
with parseable quantities. -/
theorem claim_C3_witness :
    ∃ l' sw ps o sw2 ps2,
      bubble_sort (cmpKey SortKey.quantity)
        [⟨"P2".data, "b".data, "c".data, "10".data⟩,
         ⟨"P1".data, "a".data, "c".data, "2".data⟩] = some (l', sw, ps) ∧
      l'.Perm [⟨"P2".data, "b".data, "c".data, "10".data⟩,
         ⟨"P1".data, "a".data, "c".data, "2".data⟩] ∧
      l'.Pairwise (fun x y => cmpKey SortKey.quantity x y = some false) ∧
      bubble_sort (fun p q => cmpKey SortKey.quantity p.2 q.2)
        ([⟨"P2".data, "b".data, "c".data, "10".data⟩,
          ⟨"P1".data, "a".data, "c".data, "2".data⟩] : List Record).enum
        = some (o, sw2, ps2) ∧
      o.map Prod.snd = l' ∧
      o.Perm ([⟨"P2".data, "b".data, "c".data, "10".data⟩,
          ⟨"P1".data, "a".data, "c".data, "2".data⟩] : List Record).enum ∧
      o.Pairwise (fun p q => cmpKey SortKey.quantity p.2 q.2 = some false →
        cmpKey SortKey.quantity q.2 p.2 = some false → p.1 < q.1) :=
  claim_C3_sort_correct_stable
    [⟨"P2".data, "b".data, "c".data, "10".data⟩,
     ⟨"P1".data, "a".data, "c".data, "2".data⟩]
    SortKey.quantity (fun _ => by decide)

/-- Claim C8: a store already non-decreasing under a key's comparator is
returned unchanged by the sort, with a swap counter of zero, after at
most one pass. -/
theorem claim_C8_sorted_store_no_swaps (l : List Record) (k : SortKey)
    (h : List.Chain' (fun x y => cmpKey k x y = some false) l) :
    ∃ ps, bubble_sort (cmpKey k) l = some (l, 0, ps) ∧ ps ≤ 1 :=
  bubble_sort_sorted_no_swaps (cmpKey k) l h

/-- Concrete instance of claim C8: an already name-sorted store. -/
theorem claim_C8_witness :
    ∃ ps, bubble_sort (cmpKey SortKey.name)
        [⟨"P1".data, "alpha".data, "c".data, "1".data⟩,
         ⟨"P2".data, "Zeta".data, "c".data, "2".data⟩]
      = some ([⟨"P1".data, "alpha".data, "c".data, "1".data⟩,
         ⟨"P2".data, "Zeta".data, "c".data, "2".data⟩], 0, ps) ∧ ps ≤ 1 :=
  claim_C8_sorted_store_no_swaps
    [⟨"P1".data, "alpha".data, "c".data, "1".data⟩,
     ⟨"P2".data, "Zeta".data, "c".data, "2".data⟩]
    SortKey.name
    (List.chain'_cons.mpr ⟨by decide, List.chain'_singleton _⟩)

/-- Claim C9 fails on the code as stated for singleton stores: this store
contains a record whose quantity does not parse, yet the quantity sort
returns normally, because a one-element store is never compared. -/
theorem claim_C9_counterexample :
    (∃ r ∈ ([⟨"P".data, "n".data, "c".data, "abc".data⟩] : List Record),
      pyInt r.quantity = none) ∧
    (bubble_sort (cmpKey SortKey.quantity)
      [⟨"P".data, "n".data, "c".data, "abc".data⟩]).isSome = true := by
  decide

/-- Claim C9 (amended): if every record's quantity is a digit string the
quantity sort never raises; and on a store with at least two records, a
record with a non-parseable quantity makes the quantity sort raise
instead of returning (a singleton store returns without raising because
no comparison runs). -/
theorem claim_C9_quantity_totality (l : List Record) :
    ((∀ r ∈ l, pyIsDigit r.quantity = true) →
      (bubble_sort (cmpKey SortKey.quantity) l).isSome = true) ∧
    (2 ≤ l.length → (∃ r ∈ l, pyInt r.quantity = none) →
      bubble_sort (cmpKey SortKey.quantity) l = none) := by
  constructor
  · intro hd
    rw [bubble_sort_eq (cmpKey SortKey.quantity)
      (gtOf (fun r : Record => (pyInt r.quantity).getD 0)) l
      (cmpKey_quantity_agree l hd)]
    rfl
  · intro h2 hex
    obtain ⟨r, hr, hnone⟩ := hex
    apply bubble_sort_raises _ _ h2
    refine ⟨r, hr, ?_, ?_⟩
    · intro y
      simp [cmpKey, hnone]
    · intro y
      cases hy : pyInt y.quantity <;> simp [cmpKey, hnone, hy]

/-- Concrete instances of the amended claim C9: an all-digit store sorts,
a two-record store with one bad quantity raises. -/
theorem claim_C9_witness :
    (bubble_sort (cmpKey SortKey.quantity)
      [⟨"P1".data, "a".data, "c".data, "3".data⟩,
       ⟨"P2".data, "b".data, "c".data, "1".data⟩]).isSome = true ∧
    bubble_sort (cmpKey SortKey.quantity)
      [⟨"P1".data, "a".data, "c".data, "3".data⟩,
       ⟨"P2".data, "b".data, "c".data, "x".data⟩] = none :=
  ⟨(claim_C9_quantity_totality
      [⟨"P1".data, "a".data, "c".data, "3".data⟩,
       ⟨"P2".data, "b".data, "c".data, "1".data⟩]).1 (by decide),
   (claim_C9_quantity_totality
      [⟨"P1".data, "a".data, "c".data, "3".data⟩,
       ⟨"P2".data, "b".data, "c".data, "x".data⟩]).2 (by decide) (by decide)⟩

/-! Claim C5: the save/load round trip (`save_to_file`, lines 97-112, and
`load_from_file`, lines 114-131).  `save_to_file` writes
`json.dump(inventory, f, indent=2)`; `load_from_file` returns
`json.load(f)`.  The model works on the file text: `save_to_file` is the
exact text `json.dump` produces for a list of four-field record dicts
(2-space indentation, insertion-ordered keys, string escaping as in the
json module, with non-ASCII characters written literally — the optional
`ensure_ascii` transformation does not change the parsed value), and
`load_from_file` is a whitespace-tolerant JSON parser for the
inventory-array fragment that `json.load` is applied to here.  The
temp-file/atomic-replace mechanics transport the text unchanged, so they
drop out of the round-trip statement. -/

/-- JSON whitespace. -/
def isWsJson (c : Char) : Bool :=
  c = ' ' || c = '\n' || c = '\t' || c = '\r'

/-- Skip leading JSON whitespace. -/
def skipWs : PyStr → PyStr
  | [] => []
  | c :: cs => if isWsJson c then skipWs cs else c :: cs

/-- Lower-case hex digit, as the json module emits in `\u00XX` escapes. -/
def hexDigitChar (n : Nat) : Char :=
  Char.ofNat (if n < 10 then 48 + n else 87 + n)

/-- Value of one hex digit. -/
def hexVal (c : Char) : Option Nat :=
  if '0' ≤ c && c ≤ '9' then some (c.toNat - 48)
  else if 'a' ≤ c && c ≤ 'f' then some (c.toNat - 87)
  else if 'A' ≤ c && c ≤ 'F' then some (c.toNat - 55)
  else none

/-- Escaping of one character inside a JSON string literal, as the json
module writes it: two-character escapes for quote, backslash and the
common control characters, `\u00XX` for the remaining control
characters, everything else literally. -/
def escChar (c : Char) : PyStr :=
  if c = '"' then ['\\', '"']
  else if c = '\\' then ['\\', '\\']
  else if c = '\n' then ['\\', 'n']
  else if c = '\r' then ['\\', 'r']
  else if c = '\t' then ['\\', 't']
  else if c = '\x08' then ['\\', 'b']
  else if c = '\x0c' then ['\\', 'f']
  else if c.toNat < 32 then
    ['\\', 'u', '0', '0', hexDigitChar (c.toNat / 16), hexDigitChar (c.toNat % 16)]
  else [c]

/-- JSON string literal for `s`. -/
def dumpStr (s : PyStr) : PyStr :=
  '"' :: (s.flatMap escChar ++ ['"'])

/-- Named two-character escapes accepted by the JSON string parser. -/
def unescChar (e : Char) : Option Char :=
  if e = '"' then some '"'
  else if e = '\\' then some '\\'
  else if e = '/' then some '/'
  else if e = 'n' then some '\n'
  else if e = 'r' then some '\r'
  else if e = 't' then some '\t'
  else if e = 'b' then some '\x08'
  else if e = 'f' then some '\x0c'
  else none

/-- Parse the body of a JSON string literal up to the closing quote,
returning the decoded string and the rest of the input. -/
def parseStrBody : PyStr → Option (PyStr × PyStr)
  | [] => none
  | c :: cs =>
    if c = '"' then some ([], cs)
    else if c = '\\' then
      match cs with
      | [] => none
      | e :: cs2 =>
        if e = 'u' then
          match cs2 with
          | h1 :: h2 :: h3 :: h4 :: cs3 =>
            match hexVal h1, hexVal h2, hexVal h3, hexVal h4 with
            | some a, some b, some c4, some d =>
              (parseStrBody cs3).map
                (fun p => (Char.ofNat (((a * 16 + b) * 16 + c4) * 16 + d) :: p.1, p.2))
            | _, _, _, _ => none
          | _ => none
        else
          match unescChar e with
          | some d => (parseStrBody cs2).map (fun p => (d :: p.1, p.2))
          | none => none
    else (parseStrBody cs).map (fun p => (c :: p.1, p.2))

/-- Parse a JSON string literal. -/
def parseStr (cs : PyStr) : Option (PyStr × PyStr) :=
  match cs with
  | [] => none
  | c :: r => if c = '"' then parseStrBody r else none

/-- Consume an exact literal. -/
def expectLit : PyStr → PyStr → Option PyStr
  | [], cs => some cs
  | _ :: _, [] => none
  | l :: ls, c :: cs => if c = l then expectLit ls cs else none

/-- Consume one exact character. -/
def expectChar (c : Char) (cs : PyStr) : Option PyStr :=
  match cs with
  | [] => none
  | d :: r => if d = c then some r else none

/-- The `"key": ` text in front of a value. -/
def keyLit (key : PyStr) : PyStr :=
  '"' :: (key ++ ['"', ':', ' '])

/-- One `"key": "value"` pair as dumped. -/
def dumpKV (key v : PyStr) : PyStr :=
  '"' :: (key ++ ('"' :: ':' :: ' ' :: dumpStr v))

/-- Parse one `"key": "value"` pair with the given key. -/
def parseKV (key : PyStr) (cs : PyStr) : Option (PyStr × PyStr) :=
  match expectLit (keyLit key) (skipWs cs) with
  | some cs1 => parseStr cs1
  | none => none

/-- Text of one record dict as dumped at nesting depth 1 with 2-space
indentation, keys in the construction order of `add_item`. -/
def dumpRecord (r : Record) : PyStr :=
  '{' :: '\n' :: ' ' :: ' ' :: ' ' :: ' ' ::
    (dumpKV "product_number".data r.product_number ++
      (',' :: '\n' :: ' ' :: ' ' :: ' ' :: ' ' ::
        (dumpKV "name".data r.name ++
          (',' :: '\n' :: ' ' :: ' ' :: ' ' :: ' ' ::
            (dumpKV "category".data r.category ++
              (',' :: '\n' :: ' ' :: ' ' :: ' ' :: ' ' ::
                (dumpKV "quantity".data r.quantity ++
                  ('\n' :: ' ' :: ' ' :: ['}']))))))))

/-- Parse one record object (after leading whitespace was skipped). -/
def parseRecordCore (cs : PyStr) : Option (Record × PyStr) :=
  match expectChar '{' cs with
  | none => none
  | some cs0 =>
    match parseKV "product_number".data cs0 with
    | none => none
    | some (pn, cs1) =>
      match expectChar ',' (skipWs cs1) with
      | none => none
      | some cs2 =>
        match parseKV "name".data cs2 with
        | none => none
        | some (nm, cs3) =>
          match expectChar ',' (skipWs cs3) with
          | none => none
          | some cs4 =>
            match parseKV "category".data cs4 with
            | none => none
            | some (cat, cs5) =>
              match expectChar ',' (skipWs cs5) with
              | none => none
              | some cs6 =>
                match parseKV "quantity".data cs6 with
                | none => none
                | some (qty, cs7) =>
                  match expectChar '}' (skipWs cs7) with
                  | none => none
                  | some cs8 => some (⟨pn, nm, cat, qty⟩, cs8)

/-- Parse one record object. -/
def parseRecord (cs : PyStr) : Option (Record × PyStr) :=
  parseRecordCore (skipWs cs)

/-- Separator text between two dumped records. -/
def sepItem (x : Record) : PyStr :=
  ',' :: '\n' :: ' ' :: ' ' :: dumpRecord x

/-- Parse the comma-separated record objects up to and including the
closing bracket; `fuel` bounds the number of records. -/
def parseItems : Nat → PyStr → Option (List Record × PyStr)
  | 0, _ => none
  | fuel + 1, cs =>
    match parseRecord cs with
    | none => none
    | some (r, cs1) =>
      match skipWs cs1 with
      | [] => none
      | c :: cs2 =>
        if c = ',' then
          match parseItems fuel cs2 with
          | none => none
          | some (rs, rest) => some (r :: rs, rest)
        else if c = ']' then some ([r], cs2)
        else none

/-- Model of `save_to_file`: the exact text `json.dump(inventory, f,
indent=2)` writes for the record list. -/
def save_to_file (inv : List Record) : PyStr :=
  match inv with
  | [] => ['[', ']']
  | r :: rs =>
    '[' :: '\n' :: ' ' :: ' ' ::
      (dumpRecord r ++ (rs.flatMap sepItem ++ ('\n' :: [']'])))

/-- Model of `load_from_file` on an existing file: `json.load` applied
to the file text, on the inventory-array fragment of JSON (whitespace
tolerant, escape decoding); `none` models the raised parse error. -/
def load_from_file (content : PyStr) : Option (List Record) :=
  match expectChar '[' (skipWs content) with
  | none => none
  | some cs1 =>
    match expectChar ']' (skipWs cs1) with
    | some cs2 => if skipWs cs2 = [] then some [] else none
    | none =>
      match parseItems (cs1.length + 1) cs1 with
      | none => none
      | some (rs, rest) => if skipWs rest = [] then some rs else none

/-! Round-trip lemmas for claim C5. -/

theorem skipWs_cons_ws (c : Char) (cs : PyStr) (h : isWsJson c = true) :
    skipWs (c :: cs) = skipWs cs := by
  rw [skipWs, if_pos h]

theorem skipWs_cons_not (c : Char) (cs : PyStr) (h : isWsJson c = false) :
    skipWs (c :: cs) = c :: cs := by
  rw [skipWs, if_neg (by simp [h])]

theorem expectChar_cons_self (c : Char) (cs : PyStr) :
    expectChar c (c :: cs) = some cs := by
  simp [expectChar]

theorem expectLit_self : ∀ (lit rest : PyStr), expectLit lit (lit ++ rest) = some rest := by
  intro lit
  induction lit with
  | nil => intro rest; rfl
  | cons l ls ih =>
    intro rest
    rw [List.cons_append, expectLit, if_pos rfl]
    exact ih rest

theorem hexVal_hexDigitChar : ∀ n, n < 16 → hexVal (hexDigitChar n) = some n := by
  decide

theorem parseStrBody_cons (c : Char) (cs : PyStr) :
    parseStrBody (c :: cs) =
      if c = '"' then some ([], cs)
      else if c = '\\' then
        match cs with
        | [] => none
        | e :: cs2 =>
          if e = 'u' then
            match cs2 with
            | h1 :: h2 :: h3 :: h4 :: cs3 =>
              match hexVal h1, hexVal h2, hexVal h3, hexVal h4 with
              | some a, some b, some c4, some d =>
                (parseStrBody cs3).map
                  (fun p => (Char.ofNat (((a * 16 + b) * 16 + c4) * 16 + d) :: p.1, p.2))
              | _, _, _, _ => none
            | _ => none
          else
            match unescChar e with
            | some d => (parseStrBody cs2).map (fun p => (d :: p.1, p.2))
            | none => none
      else (parseStrBody cs).map (fun p => (c :: p.1, p.2)) := by
  rw [parseStrBody.eq_def]
  rfl

theorem parseStrBody_escChar (c : Char) (X : PyStr) :
    parseStrBody (escChar c ++ X) =
      (parseStrBody X).map (fun p => (c :: p.1, p.2)) := by
  by_cases h1 : c = '"'
  · subst h1
    simp +decide [escChar, parseStrBody_cons, unescChar]
  by_cases h2 : c = '\\'
  · subst h2
    simp +decide [escChar, parseStrBody_cons, unescChar]
  by_cases h3 : c = '\n'
  · subst h3
    simp +decide [escChar, parseStrBody_cons, unescChar]
  by_cases h4 : c = '\r'
  · subst h4
    simp +decide [escChar, parseStrBody_cons, unescChar]
  by_cases h5 : c = '\t'
  · subst h5
    simp +decide [escChar, parseStrBody_cons, unescChar]
  by_cases h6 : c = '\x08'
  · subst h6
    simp +decide [escChar, parseStrBody_cons, unescChar]
  by_cases h7 : c = '\x0c'
  · subst h7
    simp +decide [escChar, parseStrBody_cons, unescChar]
  by_cases h8 : c.toNat < 32
  · have hesc : escChar c =
        ['\\', 'u', '0', '0', hexDigitChar (c.toNat / 16), hexDigitChar (c.toNat % 16)] := by
      rw [escChar, if_neg h1, if_neg h2, if_neg h3, if_neg h4, if_neg h5, if_neg h6,
        if_neg h7, if_pos h8]
    have hx1 : hexVal (hexDigitChar (c.toNat / 16)) = some (c.toNat / 16) :=
      hexVal_hexDigitChar _ (by omega)
    have hx2 : hexVal (hexDigitChar (c.toNat % 16)) = some (c.toNat % 16) :=
      hexVal_hexDigitChar _ (by omega)
    have hchar : Char.ofNat (c.toNat / 16 * 16 + c.toNat % 16) = c := by
      have h9 : c.toNat / 16 * 16 + c.toNat % 16 = c.toNat := by omega
      rw [h9, Char.ofNat_toNat]
    rw [hesc]
    simp +decide [parseStrBody_cons, hx1, hx2, hchar,
      show hexVal '0' = some 0 from by decide]
  · have hesc : escChar c = [c] := by
      rw [escChar, if_neg h1, if_neg h2, if_neg h3, if_neg h4, if_neg h5, if_neg h6,
        if_neg h7, if_neg h8]
    rw [hesc, List.singleton_append, parseStrBody_cons, if_neg h1, if_neg h2]

theorem parseStrBody_round (v rest : PyStr) :
    parseStrBody (v.flatMap escChar ++ ('"' :: rest)) = some (v, rest) := by
  induction v with
  | nil =>
    simp +decide [parseStrBody_cons]
  | cons c v ih =>
    have h : (c :: v).flatMap escChar ++ ('"' :: rest)
        = escChar c ++ (v.flatMap escChar ++ ('"' :: rest)) := by
      simp [List.append_assoc]
    rw [h, parseStrBody_escChar, ih]
    rfl

theorem parseStr_dump (v rest : PyStr) :
    parseStr (dumpStr v ++ rest) = some (v, rest) := by
  have h : dumpStr v ++ rest = '"' :: (v.flatMap escChar ++ ('"' :: rest)) := by
    simp [dumpStr]
  rw [h, parseStr, if_pos rfl]
  exact parseStrBody_round v rest

theorem parseKV_dump5 (key v rest : PyStr) :
    parseKV key ('\n' :: ' ' :: ' ' :: ' ' :: ' ' :: (dumpKV key v ++ rest))
      = some (v, rest) := by
  have hlit : dumpKV key v ++ rest = keyLit key ++ (dumpStr v ++ rest) := by
    simp [dumpKV, keyLit, List.append_assoc]
  have hskip : skipWs ('\n' :: ' ' :: ' ' :: ' ' :: ' ' :: (dumpKV key v ++ rest))
      = dumpKV key v ++ rest := by
    rw [skipWs_cons_ws _ _ (by decide), skipWs_cons_ws _ _ (by decide),
      skipWs_cons_ws _ _ (by decide), skipWs_cons_ws _ _ (by decide),
      skipWs_cons_ws _ _ (by decide)]
    rw [show dumpKV key v ++ rest
        = '"' :: ((key ++ ('"' :: ':' :: ' ' :: dumpStr v)) ++ rest) from by
      simp [dumpKV]]
    exact skipWs_cons_not _ _ (by decide)
  rw [parseKV, hskip, hlit, expectLit_self]
  exact parseStr_dump v rest

theorem dumpRecord_cons (r : Record) (Z : PyStr) :
    dumpRecord r ++ Z =
      '{' :: '\n' :: ' ' :: ' ' :: ' ' :: ' ' ::
        (dumpKV "product_number".data r.product_number ++
          (',' :: '\n' :: ' ' :: ' ' :: ' ' :: ' ' ::
            (dumpKV "name".data r.name ++
              (',' :: '\n' :: ' ' :: ' ' :: ' ' :: ' ' ::
                (dumpKV "category".data r.category ++
                  (',' :: '\n' :: ' ' :: ' ' :: ' ' :: ' ' ::
                    (dumpKV "quantity".data r.quantity ++
                      ('\n' :: ' ' :: ' ' :: '}' :: Z)))))))) := by
  simp [dumpRecord, List.append_assoc]

theorem skipWs_dumpRecord (r : Record) (Z : PyStr) :
    skipWs ('\n' :: ' ' :: ' ' :: (dumpRecord r ++ Z)) = dumpRecord r ++ Z := by
  rw [skipWs_cons_ws _ _ (by decide), skipWs_cons_ws _ _ (by decide),
    skipWs_cons_ws _ _ (by decide), dumpRecord_cons]
  exact skipWs_cons_not _ _ (by decide)

theorem skipWs_comma (cs : PyStr) : skipWs (',' :: cs) = ',' :: cs :=
  skipWs_cons_not _ _ (by decide)

theorem skipWs_close (cs : PyStr) :
    skipWs ('\n' :: ' ' :: ' ' :: '}' :: cs) = '}' :: cs := by
  rw [skipWs_cons_ws _ _ (by decide), skipWs_cons_ws _ _ (by decide),
    skipWs_cons_ws _ _ (by decide)]
  exact skipWs_cons_not _ _ (by decide)

theorem skipWs_nl_bracket (cs : PyStr) :
    skipWs ('\n' :: ']' :: cs) = ']' :: cs := by
  rw [skipWs_cons_ws _ _ (by decide)]
  exact skipWs_cons_not _ _ (by decide)

theorem parseRecord_dump3 (r : Record) (rest : PyStr) :
    parseRecord ('\n' :: ' ' :: ' ' :: (dumpRecord r ++ rest)) = some (r, rest) := by
  rw [parseRecord, skipWs_dumpRecord, dumpRecord_cons]
  simp only [parseRecordCore, expectChar_cons_self, parseKV_dump5, skipWs_comma,
    skipWs_close]

theorem parseItems_succ (fuel : Nat) (cs : PyStr) :
    parseItems (fuel + 1) cs =
      match parseRecord cs with
      | none => none
      | some (r, cs1) =>
        match skipWs cs1 with
        | [] => none
        | c :: cs2 =>
          if c = ',' then
            match parseItems fuel cs2 with
            | none => none
            | some (rs, rest) => some (r :: rs, rest)
          else if c = ']' then some ([r], cs2)
          else none :=
  rfl

theorem parseItems_dump :
    ∀ (rs : List Record) (r : Record) (rest : PyStr) (fuel : Nat),
      rs.length < fuel →
      parseItems fuel
        ('\n' :: ' ' :: ' ' ::
          (dumpRecord r ++ (rs.flatMap sepItem ++ ('\n' :: ']' :: rest))))
        = some (r :: rs, rest) := by
  intro rs
  induction rs with
  | nil =>
    intro r rest fuel hf
    obtain ⟨f, rfl⟩ : ∃ f, fuel = f + 1 := ⟨fuel - 1, by omega⟩
    rw [show (([] : List Record).flatMap sepItem ++ ('\n' :: ']' :: rest))
        = '\n' :: ']' :: rest from by simp]
    rw [parseItems_succ]
    simp only [parseRecord_dump3, skipWs_nl_bracket]
    rfl
  | cons x t ih =>
    intro r rest fuel hf
    obtain ⟨f, rfl⟩ : ∃ f, fuel = f + 1 := ⟨fuel - 1, by omega⟩
    rw [show ((x :: t).flatMap sepItem ++ ('\n' :: ']' :: rest))
        = ',' :: '\n' :: ' ' :: ' ' ::
          (dumpRecord x ++ (t.flatMap sepItem ++ ('\n' :: ']' :: rest))) from by
      simp [sepItem, List.append_assoc]]
    rw [parseItems_succ]
    simp only [parseRecord_dump3, skipWs_comma]
    rw [show parseItems f
        ('\n' :: ' ' :: ' ' ::
          (dumpRecord x ++ (t.flatMap sepItem ++ ('\n' :: ']' :: rest))))
        = some (x :: t, rest) from ih x rest f (by simp at hf; omega)]
    rfl

theorem flatMap_sepItem_len (rs : List Record) :
    rs.length ≤ (rs.flatMap sepItem).length := by
  induction rs with
  | nil => simp
  | cons x t ih =>
    have h : (x :: t).flatMap sepItem
        = ',' :: '\n' :: ' ' :: ' ' :: (dumpRecord x ++ t.flatMap sepItem) := by
      simp [sepItem, List.append_assoc]
    rw [h]
    simp only [List.length_cons, List.length_append]
    omega

/-- Claim C5: loading the exact file text that saving produces gives back
the same store, content and order: `json.dump` followed by `json.load` is
the identity on inventories. -/
theorem claim_C5_save_load_round_trip (inv : List Record) :
    load_from_file (save_to_file inv) = some inv := by
  cases inv with
  | nil => rfl
  | cons r rs =>
    have hlb : skipWs ('[' :: '\n' :: ' ' :: ' ' ::
        (dumpRecord r ++ (rs.flatMap sepItem ++ ('\n' :: [']'])))) =
        '[' :: '\n' :: ' ' :: ' ' ::
        (dumpRecord r ++ (rs.flatMap sepItem ++ ('\n' :: [']'])))  :=
      skipWs_cons_not _ _ (by decide)
    have hne : expectChar ']'
        (skipWs ('\n' :: ' ' :: ' ' ::
          (dumpRecord r ++ (rs.flatMap sepItem ++ ('\n' :: [']']))))) = none := by
      rw [skipWs_dumpRecord, dumpRecord_cons]
      rfl
    have hp : parseItems
        (('\n' :: ' ' :: ' ' ::
          (dumpRecord r ++ (rs.flatMap sepItem ++ ('\n' :: [']'])))).length + 1)
        ('\n' :: ' ' :: ' ' ::
          (dumpRecord r ++ (rs.flatMap sepItem ++ ('\n' :: [']']))))
        = some (r :: rs, []) := by
      apply parseItems_dump rs r []
      have hlen := flatMap_sepItem_len rs
      simp only [List.length_cons, List.length_append]
      omega
    rw [save_to_file, load_from_file]
    simp only [hlb, expectChar_cons_self, hne, hp]
    rfl

end Gyeon
